import Mathlib

/-!
# Thread block protocol of textile-go: a shallow embedding of `core/thread.go`

The Go methods of `Thread` are embedded as pure functions over an explicit
`World` (the part of the datastore, the outboxes and the content-addressed
store that the methods touch).  Collaborators whose code lives outside
`core/thread.go` (crypto, protobuf, ipfs, the datastore, `merge`, the per-type
block handlers) are fields of `Env`.  Go strings are lists of characters and
byte slices are lists of naturals.
-/

namespace Textile

/-- A Go `string`. -/
abbrev Str := List Char

/-- A Go `[]byte`. -/
abbrev Bytes := List Nat

/-- The type `mh.Multihash` (a byte slice). -/
abbrev Multihash := List Nat

/-- The enum `pb.ThreadBlock_Type`: the ten values `followParent` switches on, and
`other code` for every remaining enum value. -/
inductive BlockType where
  | MERGE
  | IGNORE
  | FLAG
  | JOIN
  | ANNOUNCE
  | LEAVE
  | MESSAGE
  | FILES
  | COMMENT
  | LIKE
  | other (code : Nat)
deriving DecidableEq, Repr

/-- Go `error` values.  The first three are the ones `core/thread.go` creates itself
(`errThreadReload`, `errors.New("nil message payload")`, the `invalid message type`
error of `followParent`); `ext code` is an error handed back by a collaborator. -/
inductive Err where
  | threadReload
  | nilMessagePayload
  | invalidMessageType (t : BlockType)
  | ext (code : Nat)
deriving DecidableEq, Repr

/-- The record `pb.ThreadBlockHeader`. -/
structure ThreadBlockHeader where
  date : Nat
  parents : List Str
  author : Str
deriving DecidableEq, Repr

/-- The record `pb.ThreadBlock`; `header` and `payload` are Go pointers and may be nil. -/
structure ThreadBlock where
  header : Option ThreadBlockHeader
  type : BlockType
  payload : Option Bytes
deriving DecidableEq, Repr

/-- The two request kinds `core/thread.go` hands to the cafe outbox. -/
inductive CafeRequestType where
  | CafeStoreRequest
  | CafeStoreThreadRequest
deriving DecidableEq, Repr

/-- Calls to collaborators that leave no other mark on the modelled state; they are
appended to `World.trace` at the moment the Go code makes them. -/
inductive Call where
  | headRead
  | decrypt (ciphertext : Bytes)
  | addData (data : Bytes)
  | dataAtPath (path : Str)
  | handle (t : BlockType) (hash : Multihash)
  | newEnvelope (hash : Multihash) (ciphertext : Bytes)
  | cafeFlush
  | threadsFlush
  | welcomeByThread
deriving DecidableEq, Repr

/-- The type `peer.ID`. -/
abbrev PeerId := List Nat

/-- The envelope `ThreadsService.NewEnvelope` returns, as signed bytes. -/
abbrev Envelope := List Nat

/-- The record `repo.ThreadPeer` of this thread: the peer id and the welcomed flag. -/
structure ThreadPeer where
  id : Str
  welcomed : Bool
deriving DecidableEq, Repr

/-- The state the methods of one `Thread` read and write. -/
structure World where
  /-- Result of `datastore.Threads().Get(t.Id)`: `none` when the row is missing, else its `Head`. -/
  head : Option Str
  /-- Ids of the rows of the block index (`datastore.Blocks()`). -/
  blocks : List Str
  /-- Requests added to `t.cafeOutbox`, oldest first. -/
  cafeOutbox : List (Str × CafeRequestType)
  /-- Blobs that `ipfs.AddData` stored successfully, oldest first. -/
  cas : List Bytes
  /-- Ghost record of collaborator calls, oldest first. -/
  trace : List Call
  /-- Envelopes added to `t.threadsOutbox`, oldest first. -/
  threadsOutbox : List (PeerId × Envelope) := []
  /-- Rows of `datastore.ThreadPeers()` for this thread, in list order. -/
  peers : List ThreadPeer := []
deriving DecidableEq, Repr

/-- Append one collaborator call to the ghost trace. -/
def World.logCall (w : World) (c : Call) : World :=
  { w with trace := w.trace ++ [c] }

/-- Collaborators of `core/thread.go` whose code is outside that file. -/
structure Env where
  /-- Field `t.Id`. -/
  threadId : Str
  /-- Value of `t.node().Identity.Pretty()`. -/
  localPeerId : Str
  /-- Method `Multihash.B58String`. -/
  b58 : Multihash → Str
  /-- Function `mh.FromB58String`. -/
  fromB58 : Str → Except Nat Multihash
  /-- Function `crypto.Encrypt` under the thread public key. -/
  encrypt : Bytes → Except Nat Bytes
  /-- Function `crypto.Decrypt` under the thread private key. -/
  decrypt : Bytes → Except Nat Bytes
  /-- Function `proto.Marshal` on a `ThreadBlock`. -/
  marshal : ThreadBlock → Except Nat Bytes
  /-- Function `proto.Unmarshal` into a fresh `ThreadBlock`. -/
  unmarshal : Bytes → Except Nat ThreadBlock
  /-- Function `ptypes.MarshalAny` on a non-nil message. -/
  marshalAny : Bytes → Except Nat Bytes
  /-- Value of `ptypes.TimestampProto(time.Now())`. -/
  timestampNow : World → Except Nat Nat
  /-- Function `ipfs.AddData`: the id of the stored blob, or an error. -/
  addData : Bytes → World → Except Nat Multihash
  /-- Function `ipfs.DataAtPath`. -/
  dataAtPath : Str → World → Except Nat Bytes
  /-- Error result of `datastore.Threads().UpdateHead`, `none` for success. -/
  dbUpdateHead : Str → World → Option Nat
  /-- Method `Thread.merge` (defined in another file of package core). -/
  merge : Multihash → World → Except Err (Option Multihash) × World
  /-- The per-type handlers `handle*Block`, with their first result dropped. -/
  handle : BlockType → Multihash → ThreadBlock → World → Except Err Unit × World
  /-- Method `ThreadsService.NewEnvelope` on a thread id, a hash and a ciphertext. -/
  newEnvelope : Str → Multihash → Bytes → Except Nat Envelope
  /-- Function `peer.IDB58Decode`. -/
  idB58Decode : Str → Except Nat PeerId
  /-- Error result of `ThreadsOutbox.Add`, `none` for success. -/
  outboxAdd : PeerId → Envelope → World → Option Nat
  /-- Error result of `datastore.ThreadPeers().WelcomeByThread`, `none` for success. -/
  dbWelcome : World → Option Nat

/-- Method `Thread.Head`. -/
def Head (w : World) : Except Err Str × World :=
  match w.head with
  | none => (.error Err.threadReload, w.logCall Call.headRead)
  | some h => (.ok h, w.logCall Call.headRead)

/-- Method `Thread.updateHead`. -/
def updateHead (env : Env) (head : Multihash) (w : World) : Except Err Unit × World :=
  match env.dbUpdateHead (env.b58 head) w with
  | some e => (.error (Err.ext e), w)
  | none =>
    (.ok (),
      { w with
        head := some (env.b58 head)
        cafeOutbox := w.cafeOutbox ++ [(env.threadId, CafeRequestType.CafeStoreThreadRequest)] })

/-- The loop of `handleHead` that computes the local `fastForwardable`. -/
def fastForwardable (head : Str) (parents : List Str) : Bool :=
  if head = [] then true
  else parents.foldl (fun ff parent => if head = parent then true else ff) false

/-- Method `Thread.handleHead`. -/
def handleHead (env : Env) (inbound : Multihash) (parents : List Str) (w : World) :
    Except Err (Option Multihash) × World :=
  match Head w with
  | (.error e, w1) => (.error e, w1)
  | (.ok head, w1) =>
    if fastForwardable head parents then
      match updateHead env inbound w1 with
      | (.error e, w2) => (.error e, w2)
      | (.ok _, w2) => (.ok none, w2)
    else
      env.merge inbound w1

/-- The record `commitResult`. -/
structure commitResult where
  hash : Multihash
  ciphertext : Bytes
  header : Option ThreadBlockHeader
deriving DecidableEq, Repr

/-- Method `Thread.newBlockHeader`. -/
def newBlockHeader (env : Env) (w : World) : Except Err ThreadBlockHeader × World :=
  match Head w with
  | (.error e, w1) => (.error e, w1)
  | (.ok head, w1) =>
    match env.timestampNow w1 with
    | .error e => (.error (Err.ext e), w1)
    | .ok pdate =>
      let parents : List Str := if head ≠ [] then head.splitOn ',' else []
      (.ok { date := pdate, parents := parents, author := env.localPeerId }, w1)

/-- Method `Thread.addBlock`. -/
def addBlock (env : Env) (ciphertext : Bytes) (w : World) : Except Err Multihash × World :=
  let w1 := w.logCall (Call.addData ciphertext)
  match env.addData ciphertext w1 with
  | .error e => (.error (Err.ext e), w1)
  | .ok id =>
    (.ok id,
      { w1 with
        cas := w1.cas ++ [ciphertext]
        cafeOutbox := w1.cafeOutbox ++ [(env.b58 id, CafeRequestType.CafeStoreRequest)] })

/-- Method `Thread.commitBlock`; `msg = none` is a nil message and `encrypt = none` a
nil encryption function. -/
def commitBlock (env : Env) (msg : Option Bytes) (mtype : BlockType)
    (encrypt : Option (Bytes → Except Nat Bytes)) (w : World) :
    Except Err commitResult × World :=
  match newBlockHeader env w with
  | (.error e, w1) => (.error e, w1)
  | (.ok header, w1) =>
    let wrapped : Except Nat (Option Bytes) :=
      match msg with
      | none => .ok none
      | some m =>
        match env.marshalAny m with
        | .error e => .error e
        | .ok payload => .ok (some payload)
    match wrapped with
    | .error e => (.error (Err.ext e), w1)
    | .ok payload =>
      let block : ThreadBlock := { header := some header, type := mtype, payload := payload }
      match env.marshal block with
      | .error e => (.error (Err.ext e), w1)
      | .ok plaintext =>
        let enc : Bytes → Except Nat Bytes :=
          match encrypt with
          | none => env.encrypt
          | some f => f
        match enc plaintext with
        | .error e => (.error (Err.ext e), w1)
        | .ok ciphertext =>
          match addBlock env ciphertext w1 with
          | (.error e, w2) => (.error e, w2)
          | (.ok hash, w2) =>
            (.ok { hash := hash, ciphertext := ciphertext, header := some header }, w2)

/-- The tail of `handleBlock`, from the nil-payload check on. -/
def acceptBlock (env : Env) (ciphertext : Bytes) (block : ThreadBlock) (w : World) :
    Except Err (Option ThreadBlock) × World :=
  if block.payload = none ∧ block.type ≠ BlockType.MERGE ∧ block.type ≠ BlockType.LEAVE then
    (.error Err.nilMessagePayload, w)
  else
    match addBlock env ciphertext w with
    | (.error e, w1) => (.error e, w1)
    | (.ok _, w1) => (.ok (some block), w1)

/-- Method `Thread.handleBlock`; the result `none` is Go's `(nil, nil)`. -/
def handleBlock (env : Env) (hash : Multihash) (ciphertext : Bytes) (w : World) :
    Except Err (Option ThreadBlock) × World :=
  if env.b58 hash ∈ w.blocks then (.ok none, w)
  else
    let w1 := w.logCall (Call.decrypt ciphertext)
    match env.decrypt ciphertext with
    | .error err =>
      match env.unmarshal ciphertext with
      | .error _ => (.error (Err.ext err), w1)
      | .ok block =>
        if block.type ≠ BlockType.MERGE then (.error (Err.ext err), w1)
        else acceptBlock env ciphertext block w1
    | .ok plaintext =>
      match env.unmarshal plaintext with
      | .error e => (.error (Err.ext e), w1)
      | .ok block => acceptBlock env ciphertext block w1

/-- The loop of `Thread.post` over the peers. -/
def postLoop (env : Env) (envelope : Envelope) : List ThreadPeer → World → Except Err Unit × World
  | [], w => (.ok (), w)
  | tp :: rest, w =>
    match env.idB58Decode tp.id with
    | .error e => (.error (Err.ext e), w)
    | .ok pid =>
      match env.outboxAdd pid envelope w with
      | some e => (.error (Err.ext e), w)
      | none => postLoop env envelope rest { w with threadsOutbox := w.threadsOutbox ++ [(pid, envelope)] }

/-- Method `Thread.post`; the trace entry `threadsFlush` is the start of the goroutine
`go t.threadsOutbox.Flush()`. -/
def post (env : Env) (commit : commitResult) (peers : List ThreadPeer) (w : World) :
    Except Err Unit × World :=
  if peers.length = 0 then (.ok (), w.logCall Call.cafeFlush)
  else
    let w1 := w.logCall (Call.newEnvelope commit.hash commit.ciphertext)
    match env.newEnvelope env.threadId commit.hash commit.ciphertext with
    | .error e => (.error (Err.ext e), w1)
    | .ok envelope =>
      match postLoop env envelope peers w1 with
      | (.error e, w2) => (.error e, w2)
      | (.ok _, w2) => (.ok (), w2.logCall Call.threadsFlush)

/-- Modelled from the spec: `ThreadPeers().ListUnwelcomedByThread` is not under src/; it
lists the peers of the thread whose welcomed flag is not set. -/
def ListUnwelcomedByThread (w : World) : List ThreadPeer :=
  w.peers.filter (fun p => !p.welcomed)

/-- Modelled from the spec: `ThreadPeers().WelcomeByThread` is not under src/; on success it
sets the welcomed flag of every peer of the thread. -/
def WelcomeByThread (env : Env) (w : World) : Except Err Unit × World :=
  let w1 := w.logCall Call.welcomeByThread
  match env.dbWelcome w1 with
  | some e => (.error (Err.ext e), w1)
  | none => (.ok (), { w1 with peers := w1.peers.map (fun p => { p with welcomed := true }) })

/-- Method `Thread.sendWelcome`. -/
def sendWelcome (env : Env) (w : World) : Except Err Unit × World :=
  let peers := ListUnwelcomedByThread w
  if peers.length = 0 then (.ok (), w)
  else
    match Head w with
    | (.error e, w1) => (.error e, w1)
    | (.ok head, w1) =>
      if head = [] then (.ok (), w1)
      else
        let w2 := w1.logCall (Call.dataAtPath head)
        match env.dataAtPath head w2 with
        | .error e => (.error (Err.ext e), w2)
        | .ok ciphertext =>
          match env.fromB58 head with
          | .error e => (.error (Err.ext e), w2)
          | .ok hash =>
            match post env { hash := hash, ciphertext := ciphertext, header := none } peers w2 with
            | (.error e, w3) => (.error e, w3)
            | (.ok _, w3) =>
              match WelcomeByThread env w3 with
              | (.error e, w4) => (.error e, w4)
              | (.ok _, w4) => (.ok (), w4)

/-- How a call that recurses through the DAG can end: a normal Go return, a nil
pointer dereference, or the recursion budget of the model running out. -/
inductive Run (α : Type) where
  | ret (r : Except Err α) (w : World)
  | panic (w : World)
  | outOfFuel

/-- The loop of `Thread.followParents` over a given `followParent`. -/
def followParentsWith (env : Env) (followParent : Multihash → World → Run Unit) :
    List Str → World → Run Unit
  | [], w => Run.ret (.ok ()) w
  | parent :: rest, w =>
    if parent = [] then followParentsWith env followParent rest w
    else
      match env.fromB58 parent with
      | .error e => Run.ret (.error (Err.ext e)) w
      | .ok hash =>
        match followParent hash w with
        | Run.ret _ w1 => followParentsWith env followParent rest w1
        | Run.panic w1 => Run.panic w1
        | Run.outOfFuel => Run.outOfFuel

/-- One arm of the type switch of `followParent`: the call of the handler for type `t`. -/
def callHandler (env : Env) (t : BlockType) (parent : Multihash) (block : ThreadBlock)
    (w : World) : Except Err Unit × World :=
  env.handle t parent block (w.logCall (Call.handle t parent))

/-- The type switch of `followParent`: the per-type handler, or `none` for the default arm. -/
def dispatch (env : Env) (parent : Multihash) (block : ThreadBlock) (w : World) :
    Option (Except Err Unit × World) :=
  match block.type with
  | BlockType.MERGE => some (callHandler env BlockType.MERGE parent block w)
  | BlockType.IGNORE => some (callHandler env BlockType.IGNORE parent block w)
  | BlockType.FLAG => some (callHandler env BlockType.FLAG parent block w)
  | BlockType.JOIN => some (callHandler env BlockType.JOIN parent block w)
  | BlockType.ANNOUNCE => some (callHandler env BlockType.ANNOUNCE parent block w)
  | BlockType.LEAVE => some (callHandler env BlockType.LEAVE parent block w)
  | BlockType.MESSAGE => some (callHandler env BlockType.MESSAGE parent block w)
  | BlockType.FILES => some (callHandler env BlockType.FILES parent block w)
  | BlockType.COMMENT => some (callHandler env BlockType.COMMENT parent block w)
  | BlockType.LIKE => some (callHandler env BlockType.LIKE parent block w)
  | BlockType.other _ => none

/-- Method `Thread.followParent`, with a budget on the depth of the recursion. -/
def followParent (env : Env) : Nat → Multihash → World → Run Unit
  | 0, _, _ => Run.outOfFuel
  | fuel + 1, parent, w =>
    let w1 := w.logCall (Call.dataAtPath (env.b58 parent))
    match env.dataAtPath (env.b58 parent) w1 with
    | .error e => Run.ret (.error (Err.ext e)) w1
    | .ok ciphertext =>
      match handleBlock env parent ciphertext w1 with
      | (.error e, w2) => Run.ret (.error e) w2
      | (.ok none, w2) => Run.ret (.ok ()) w2
      | (.ok (some block), w2) =>
        match dispatch env parent block w2 with
        | none => Run.ret (.error (Err.invalidMessageType block.type)) w2
        | some (.error e, w3) => Run.ret (.error e) w3
        | some (.ok _, w3) =>
          match block.header with
          | none => Run.panic w3
          | some header => followParentsWith env (followParent env fuel) header.parents w3

/-- Method `Thread.followParents`, with the same budget. -/
def followParents (env : Env) (fuel : Nat) (parents : List Str) (w : World) : Run Unit :=
  followParentsWith env (followParent env fuel) parents w

/-! ## A concrete environment for evaluating the model -/

/-- The four blocks the fixture codec knows. -/
def fixtureBlock : Nat → Option ThreadBlock
  | 1 => some { header := some { date := 5, parents := [], author := ['p'] },
                type := BlockType.MESSAGE, payload := some [9] }
  | 2 => some { header := some { date := 6, parents := [['a'], ['b']], author := ['p'] },
                type := BlockType.MERGE, payload := none }
  | 3 => some { header := some { date := 7, parents := [['a']], author := ['q'] },
                type := BlockType.LEAVE, payload := none }
  | 4 => some { header := some { date := 8, parents := [['a']], author := ['q'] },
                type := BlockType.MESSAGE, payload := none }
  | _ => none

/-- Fixture `proto.Unmarshal`: a one-byte input names a fixture block, anything else does
not parse. -/
def fixtureUnmarshal : Bytes → Except Nat ThreadBlock
  | [n] =>
    match fixtureBlock n with
    | some b => .ok b
    | none => .error 40
  | _ => .error 41

/-- Fixture `proto.Marshal`: the inverse of `fixtureUnmarshal` on the fixture blocks. -/
def fixtureMarshal (b : ThreadBlock) : Except Nat Bytes :=
  if fixtureBlock 1 = some b then .ok [1]
  else if fixtureBlock 2 = some b then .ok [2]
  else if fixtureBlock 3 = some b then .ok [3]
  else if fixtureBlock 4 = some b then .ok [4]
  else .error 42

/-- Modelled from the spec: `Thread.merge` is not under src/; section 4.4.5 has it build a
MERGE block over the current HEAD and the inbound block, store it in cleartext, index it,
move HEAD to the merge hash and return that hash.  This fixture stores the one-byte MERGE
fixture block. -/
def fixtureMerge (b58 : Multihash → Str) (_inbound : Multihash) (w : World) :
    Except Err (Option Multihash) × World :=
  let mergeHash : Multihash := [2]
  (.ok (some mergeHash),
    { w with
      head := some (b58 mergeHash)
      blocks := w.blocks ++ [b58 mergeHash]
      cas := w.cas ++ [[2]]
      cafeOutbox := w.cafeOutbox ++ [(b58 mergeHash, CafeRequestType.CafeStoreRequest)] })

/-- Fixture base58: one letter per byte, `0 ↦ a`, `1 ↦ b`, ... -/
def fixtureB58 (h : Multihash) : Str :=
  h.map (fun n => Char.ofNat (n + 97))

/-- Fixture `mh.FromB58String`: lower-case letters decode, anything else is an error. -/
def fixtureFromB58 (s : Str) : Except Nat Multihash :=
  if s.all (fun c => decide (97 ≤ c.toNat ∧ c.toNat ≤ 122)) then .ok (s.map (fun c => c.toNat - 97))
  else .error 58

/-- A concrete environment: encryption prepends a zero byte, the content id of a blob is the
blob itself, the CAS serves the blobs stored in it, the datastore never fails and every
handler indexes the block it is given. -/
def demoEnv : Env where
  threadId := ['t']
  localPeerId := ['p']
  b58 := fixtureB58
  fromB58 := fixtureFromB58
  encrypt := fun x => .ok (0 :: x)
  decrypt := fun c =>
    match c with
    | 0 :: x => .ok x
    | _ => .error 30
  marshal := fixtureMarshal
  unmarshal := fixtureUnmarshal
  marshalAny := fun m => .ok m
  timestampNow := fun _ => .ok 5
  addData := fun d _ => if d = [] then .error 20 else .ok d
  dataAtPath := fun path w =>
    match w.cas.find? (fun d => decide (fixtureB58 d = path)) with
    | some d => .ok d
    | none => .error 21
  dbUpdateHead := fun _ _ => none
  merge := fixtureMerge fixtureB58
  handle := fun _ hash _ w => (.ok (), { w with blocks := w.blocks ++ [fixtureB58 hash] })
  newEnvelope := fun tid hash ciphertext => .ok (tid.map Char.toNat ++ 0 :: hash ++ 0 :: ciphertext)
  idB58Decode := fixtureFromB58
  outboxAdd := fun pid _ _ => if pid = [25] then some 60 else none
  dbWelcome := fun _ => none

/-- The environment `demoEnv` with a datastore whose head write fails. -/
def brokenDbEnv : Env :=
  { demoEnv with dbUpdateHead := fun _ _ => some 50 }

/-- An empty world whose thread row has the given HEAD. -/
def worldWithHead (h : Str) : World :=
  { head := some h, blocks := [], cafeOutbox := [], cas := [], trace := [] }

/-- A world whose block index holds the id `d`. -/
def indexedWorld : World :=
  { head := some ['a'], blocks := [['d']], cafeOutbox := [], cas := [], trace := [] }

/-- A world whose CAS holds the encrypted fixture MESSAGE block, under the id `ab`. -/
def casWorld : World :=
  { head := some [], blocks := [], cafeOutbox := [], cas := [[0, 1]], trace := [] }

/-- The environment `demoEnv` whose codec also parses the bytes `[5]`, as a block of the
unknown type 42 with a payload. -/
def unknownTypeEnv : Env :=
  { demoEnv with
    unmarshal := fun bs =>
      if bs = [5] then
        .ok { header := some { date := 9, parents := [['a', 'b']], author := ['q'] },
              type := BlockType.other 42, payload := some [1] }
      else fixtureUnmarshal bs }

/-- A world whose CAS holds the encrypted block of unknown type (id `af`) and the encrypted
fixture MESSAGE block (id `ab`), its parent. -/
def unknownTypeWorld : World :=
  { head := some ['h'], blocks := [], cafeOutbox := [], cas := [[0, 5], [0, 1]], trace := [] }

/-- A world where the id `ab` is indexed and its ciphertext is in the CAS. -/
def indexedCasWorld : World :=
  { head := some ['a', 'b'], blocks := [['a', 'b']], cafeOutbox := [], cas := [[0, 1]],
    trace := [] }

/-- A world with HEAD `ab` in the CAS, one welcomed peer `c` and two unwelcomed peers
`b` and `d`. -/
def welcomeWorld : World :=
  { head := some ['a', 'b'], blocks := [['a', 'b']], cafeOutbox := [], cas := [[0, 1]],
    trace := [],
    peers := [{ id := ['b'], welcomed := false }, { id := ['c'], welcomed := true },
              { id := ['d'], welcomed := false }] }

/-- The payload step of `commitBlock`: a nil message gives no payload, any other message
is wrapped by `ptypes.MarshalAny`. -/
def wrapMessage (env : Env) (msg : Option Bytes) : Except Nat (Option Bytes) :=
  match msg with
  | none => .ok none
  | some m =>
    match env.marshalAny m with
    | .error e => .error e
    | .ok payload => .ok (some payload)

/-- The encryption `commitBlock` uses: the one supplied, or the thread key when it is nil. -/
def encryptWith (env : Env) (encrypt : Option (Bytes → Except Nat Bytes)) :
    Bytes → Except Nat Bytes :=
  match encrypt with
  | none => env.encrypt
  | some f => f

/-! ## `core/core.go`: the publish coalescer -/

/-- Two's-complement wrap of a 64-bit Go `int`. -/
def wrapInt64 (x : Int) : Int :=
  (x + 2 ^ 63) % 2 ^ 64 - 2 ^ 63

/-- The state `TextileNode.publish` works on, held under `PublishLock`. -/
structure NodeState where
  /-- Field `n.RootHash`. -/
  rootHash : Str
  /-- Package variable `inflightPublishRequests`. -/
  inflightPublishRequests : Int
  /-- Hashes handed to `ipfs.Publish`, oldest first. -/
  published : List Str
  /-- Errors handed to `log.Error`, oldest first. -/
  logged : List Nat
  /-- Ghost record of every value stored into `inflightPublishRequests`, oldest first. -/
  counterValues : List Int
deriving DecidableEq, Repr

/-- Method `TextileNode.publish`, from taking `PublishLock` to releasing it; `ipfsPublish`
is the error result of `ipfs.Publish`. -/
def publish (ipfsPublish : Str → NodeState → Option Nat) (hash : Str) (n : NodeState) :
    NodeState :=
  if hash ≠ n.rootHash then n
  else
    let c1 := wrapInt64 (n.inflightPublishRequests + 1)
    let n1 : NodeState :=
      { n with inflightPublishRequests := c1, counterValues := n.counterValues ++ [c1] }
    let n2 : NodeState := { n1 with published := n1.published ++ [hash] }
    let err := ipfsPublish hash n2
    let c2 := wrapInt64 (n2.inflightPublishRequests - 1)
    let n3 : NodeState :=
      { n2 with inflightPublishRequests := c2, counterValues := n2.counterValues ++ [c2] }
    if n3.inflightPublishRequests = 0 then
      match err with
      | some e => { n3 with logged := n3.logged ++ [e] }
      | none => n3
    else n3

/-- What happens to a node between start and now: `SeedNode` stores a new root hash, or a
queued `publish(hash)` gets the lock. -/
inductive NodeEvent where
  | seed (rootHash : Str)
  | publish (hash : Str)
deriving DecidableEq, Repr

/-- The node state after a sequence of events. -/
def runNode (ipfsPublish : Str → NodeState → Option Nat) : List NodeEvent → NodeState → NodeState
  | [], n => n
  | NodeEvent.seed h :: rest, n => runNode ipfsPublish rest { n with rootHash := h }
  | NodeEvent.publish h :: rest, n => runNode ipfsPublish rest (publish ipfsPublish h n)

/-- The node state at start: the counter is zero and nothing has been published. -/
def initialNode (rootHash : Str) : NodeState :=
  { rootHash := rootHash, inflightPublishRequests := 0, published := [], logged := [],
    counterValues := [] }

/-! ## `cmd/decrypt.go`: the decrypt-database command -/

/-- What `os.Stat` reports about a path: it is there, it does not exist (the case
`os.IsNotExist` recognizes), or the call failed for another reason. -/
inductive StatResult where
  | found
  | notExist
  | failed
deriving DecidableEq, Repr

/-- Which database a line read from standard input selects. -/
inductive Choice where
  | mainnet
  | testnet
  | unknown
deriving DecidableEq, Repr

/-- The tests `strings.Contains(strings.ToLower(resp), ...)` of `Execute`, mainnet first;
`toLower` is the library function `strings.ToLower`, which lowers every Unicode letter. -/
def classify (toLower : Str → Str) (resp : Str) : Choice :=
  if "mainnet".toList <:+: toLower resp then Choice.mainnet
  else if "testnet".toList <:+: toLower resp then Choice.testnet
  else Choice.unknown

/-- What `Execute` does to the outside, in order: lines printed, and calls on the
repository. -/
inductive Effect where
  | print (line : String)
  | printError (code : Nat)
  | openDb (repoPath : Str) (password : Str) (testnet : Bool)
  | mkdirTmp
  | createTmpDb
  | initTables
  | copyDb (filename : Str)
  | renameDb (filename : Str)
  | removeTmp
deriving DecidableEq, Repr

/-- The effects that write to the repository: everything but printing and opening the
existing database. -/
def Effect.mutates : Effect → Bool
  | Effect.print _ => false
  | Effect.printError _ => false
  | Effect.openDb _ _ _ => false
  | _ => true

/-- Collaborators of `DecryptDatabase.Execute`. -/
structure DecryptEnv where
  /-- Function `strings.ToLower`. -/
  toLower : Str → Str
  /-- Result of `repo.GetRepoPath(false)`. -/
  getRepoPath : Except Nat Str
  /-- Result of `os.Stat` on the repo lock file of a repo path. -/
  statLock : Str → StatResult
  /-- Result of `os.Stat` on the database file of a repo path and a file name. -/
  statDb : Str → Str → StatResult
  /-- Result of `db.Create(repoPath, pw, testnet)`: an error, or the value of
  `Config().IsEncrypted()` of the opened database. -/
  dbCreate : Str → Str → Bool → Except Nat Bool
  /-- Error result of `os.MkdirAll` on the tmp datastore directory. -/
  mkdirAll : Str → Option Nat
  /-- Error result of `db.Create` on the tmp directory. -/
  tmpCreate : Str → Bool → Option Nat
  /-- Error result of `sqlliteDB.Copy`. -/
  copy : Str → Str → Option Nat
  /-- Error result of `os.Rename`. -/
  rename : Str → Str → Option Nat

/-- How a run of `Execute` ends: it returns an error value (`none` is nil, exit status 0),
or standard input runs dry and the prompt loop never ends. -/
inductive Exit where
  | returned (err : Option Nat) (effects : List Effect)
  | prompting (effects : List Effect)
deriving DecidableEq, Repr

/-- The statement `pw = strings.Replace(pw, "'", "''", -1)`. -/
def escapeQuotes (pw : Str) : Str :=
  pw.flatMap (fun c => if c = Char.ofNat 39 then [Char.ofNat 39, Char.ofNat 39] else [c])

/-- The part of `Execute` after the prompt loop, for the chosen file name. -/
def decryptChosen (denv : DecryptEnv) (repoPath : Str) (password : Str) (testnet : Bool)
    (filename : Str) (effects : List Effect) : Exit :=
  let pw := escapeQuotes password
  let e1 := effects ++ [Effect.print "Enter your password: ", Effect.print "",
    Effect.openDb repoPath pw testnet]
  match denv.dbCreate repoPath pw testnet with
  | .error err => Exit.returned (some err) (e1 ++ [Effect.print "Invalid password"])
  | .ok true => Exit.returned none (e1 ++ [Effect.print "Invalid password"])
  | .ok false =>
    let e2 := e1 ++ [Effect.mkdirTmp]
    match denv.mkdirAll repoPath with
    | some err => Exit.returned (some err) e2
    | none =>
      let e3 := e2 ++ [Effect.createTmpDb]
      match denv.tmpCreate repoPath testnet with
      | some err => Exit.returned (some err) (e3 ++ [Effect.printError err])
      | none =>
        let e4 := e3 ++ [Effect.initTables, Effect.copyDb filename]
        match denv.copy repoPath filename with
        | some err => Exit.returned (some err) (e4 ++ [Effect.printError err])
        | none =>
          let e5 := e4 ++ [Effect.renameDb filename]
          match denv.rename repoPath filename with
          | some err => Exit.returned (some err) (e5 ++ [Effect.printError err])
          | none => Exit.returned none (e5 ++ [Effect.removeTmp, Effect.print "Success!"])

/-- The two checks `Execute` makes once a database is chosen: the lock file, then the
database file; `hint` is the word that differs between the two printed lines. -/
def checkRepo (denv : DecryptEnv) (repoPath : Str) (password : Str) (testnet : Bool)
    (filename : Str) (hint : String) (effects : List Effect) : Exit :=
  if denv.statLock repoPath ≠ StatResult.notExist then
    Exit.returned none (effects ++ [Effect.print "Cannot decrypt while the daemon is running."])
  else if denv.statDb repoPath filename = StatResult.notExist then
    Exit.returned none (effects ++ [Effect.print hint])
  else decryptChosen denv repoPath password testnet filename effects

/-- The prompt loop of `Execute` over the lines standard input still holds. -/
def promptLoop (denv : DecryptEnv) (repoPath : Str) (password : Str) :
    List Str → List Effect → Exit
  | [], effects => Exit.prompting effects
  | resp :: rest, effects =>
    let e1 := effects ++ [Effect.print "Decrypt the mainnet or testnet db?: "]
    match classify denv.toLower resp with
    | Choice.mainnet =>
      checkRepo denv repoPath password false "mainnet.db".toList
        "Database does not exist. You may need to run the daemon at least once to initialize it."
        e1
    | Choice.testnet =>
      checkRepo denv repoPath password true "testnet.db".toList
        "Database does not exist. You may need to run the node at least once to initialize it."
        e1
    | Choice.unknown =>
      promptLoop denv repoPath password rest (e1 ++ [Effect.print "No comprende"])

/-- Method `DecryptDatabase.Execute`: `dataDir` is the field `x.DataDir`, `stdin` the lines
the reader returns and `password` what `terminal.ReadPassword` returns. -/
def Execute (denv : DecryptEnv) (dataDir : Str) (stdin : List Str) (password : Str) : Exit :=
  if dataDir = [] then
    match denv.getRepoPath with
    | .error err => Exit.returned none [Effect.printError err]
    | .ok repoPath => promptLoop denv repoPath password stdin []
  else promptLoop denv dataDir password stdin []

/-- Fixture `strings.ToLower`: the ASCII capitals and the one other letter whose lower case
is an ASCII letter, U+0130 (capital I with dot above, lowered to `i`); every other
character of the lines used here is left as it is. -/
def fixtureToLower (s : Str) : Str :=
  s.map (fun c => if c = Char.ofNat 0x130 then 'i' else c.toLower)

/-- A repository with no lock file and a database that opens when the password is `pw`
(and then reports as decrypted), reports as encrypted when the password is empty and fails
to open otherwise. -/
def demoRepo : DecryptEnv where
  toLower := fixtureToLower
  getRepoPath := .ok "repo".toList
  statLock := fun _ => StatResult.notExist
  statDb := fun _ name => if name = "mainnet.db".toList then StatResult.found else StatResult.notExist
  dbCreate := fun _ pw _ =>
    if pw = "pw".toList then .ok false else if pw = [] then .ok true else .error 14
  mkdirAll := fun _ => none
  tmpCreate := fun _ _ => none
  copy := fun _ _ => none
  rename := fun _ _ => none

/-- Whether a list of effects leaves the repository as it was. -/
def quiet (effects : List Effect) : Bool :=
  effects.all (fun ef => !ef.mutates)

/-- What the prompt loop prints for lines it does not understand. -/
def skipEffects (skipped : List Str) : List Effect :=
  skipped.flatMap (fun _ =>
    [Effect.print "Decrypt the mainnet or testnet db?: ", Effect.print "No comprende"])

/-- The environment `demoEnv` whose codec also parses the bytes `[6]`, as a MERGE block
with no header. -/
def nilHeaderEnv : Env :=
  { demoEnv with
    unmarshal := fun bs =>
      if bs = [6] then .ok { header := none, type := BlockType.MERGE, payload := none }
      else fixtureUnmarshal bs }

/-- A world whose CAS holds the cleartext MERGE block without header (id `g`) and the
encrypted fixture MESSAGE block (id `ab`). -/
def nilHeaderWorld : World :=
  { head := some ['h'], blocks := [], cafeOutbox := [], cas := [[6], [0, 1]], trace := [] }

/-- The environment `demoEnv` on a node whose `ipfs.AddData` fails. -/
def fullCasEnv : Env :=
  { demoEnv with addData := fun _ _ => .error 20 }

/-- The environment `demoEnv` with a service whose `NewEnvelope` fails. -/
def noEnvelopeEnv : Env :=
  { demoEnv with newEnvelope := fun _ _ _ => .error 77 }

/-- A world where the id `ab` is indexed and the CAS does not hold its ciphertext. -/
def indexedNoCasWorld : World :=
  { head := some ['a', 'b'], blocks := [['a', 'b']], cafeOutbox := [], cas := [], trace := [] }

/-! ## Theorems -/

/-- The loop of `handleHead` sets the flag exactly when HEAD is one of the parents. -/
theorem foldl_fastForward (head : Str) (parents : List Str) (acc : Bool) :
    parents.foldl (fun ff parent => if head = parent then true else ff) acc = true ↔
      acc = true ∨ head ∈ parents := by
  induction parents generalizing acc with
  | nil => simp
  | cons p ps ih =>
    rw [List.foldl_cons, ih]
    by_cases hp : head = p
    · simp [hp]
    · simp [hp]

/-- The flag `fastForwardable` is set exactly when HEAD is empty or equal to a parent. -/
theorem fastForwardable_iff (head : Str) (parents : List Str) :
    fastForwardable head parents = true ↔ (head = [] ∨ head ∈ parents) := by
  unfold fastForwardable
  by_cases hh : head = []
  · simp [hh]
  · rw [if_neg hh, foldl_fastForward]
    simp [hh]

/-- C1 counterexample: HEAD is empty, so the fast-forward branch is taken, but the
datastore refuses the head write: `handleHead` returns that error, not a nil merge hash
with no error, and HEAD does not become `d`, the base58 string of the inbound hash. -/
theorem handleHead_failed_write_counterexample :
    (worldWithHead []).head = some [] ∧
    brokenDbEnv.b58 [3] = ['d'] ∧
    handleHead brokenDbEnv [3] [] (worldWithHead []) =
      (.error (Err.ext 50),
        { head := some [], blocks := [], cas := [], trace := [Call.headRead],
          cafeOutbox := [] }) :=
  ⟨rfl, rfl, rfl⟩

/-- C1 (amended): for a thread whose stored HEAD is `h`, `handleHead` takes the fast-forward branch
exactly when `h` is empty or equal to an element of `parents`.  On that branch it calls
`updateHead(inbound)` and never `merge`: when the datastore write succeeds HEAD becomes the
base58 string of `inbound`, the thread is queued for the cafe and the result is a nil merge
hash with no error; a failed write is returned as the error with HEAD unchanged.  In every
other case the result and the state are exactly those of `merge(inbound)`. -/
theorem handleHead_fastForward_iff (env : Env) (w : World) (h : Str) (inbound : Multihash)
    (parents : List Str) (hw : w.head = some h) :
    (fastForwardable h parents = true ↔ (h = [] ∨ h ∈ parents)) ∧
    ((h = [] ∨ h ∈ parents) →
      handleHead env inbound parents w =
        match env.dbUpdateHead (env.b58 inbound) (w.logCall Call.headRead) with
        | some e => (.error (Err.ext e), w.logCall Call.headRead)
        | none =>
          (.ok none,
            { w.logCall Call.headRead with
              head := some (env.b58 inbound)
              cafeOutbox := w.cafeOutbox ++
                [(env.threadId, CafeRequestType.CafeStoreThreadRequest)] })) ∧
    (¬ (h = [] ∨ h ∈ parents) →
      handleHead env inbound parents w = env.merge inbound (w.logCall Call.headRead)) := by
  have hff := fastForwardable_iff h parents
  refine ⟨hff, ?_, ?_⟩
  · intro hc
    have hb := hff.mpr hc
    simp only [handleHead, Head, hw, hb, if_true, updateHead]
    cases hu : env.dbUpdateHead (env.b58 inbound) (w.logCall Call.headRead) <;> rfl
  · intro hc
    have hb : fastForwardable h parents = false := by
      cases hq : fastForwardable h parents with
      | false => rfl
      | true => exact absurd (hff.mp hq) hc
    simp [handleHead, Head, hw, hb]

/-- C1 (amended) witness: HEAD `a`, parents `[x, a]`, a working datastore: HEAD moves to `d`, the
base58 string of the inbound hash `[3]`.  With an empty HEAD and a datastore whose head
write fails, the write error is returned and HEAD stays empty. -/
theorem handleHead_fastForward_iff_witness :
    (worldWithHead ['a']).head = some ['a'] ∧
    handleHead demoEnv [3] [['x'], ['a']] (worldWithHead ['a']) =
      (.ok none,
        { head := some ['d'], blocks := [], cas := [], trace := [Call.headRead],
          cafeOutbox := [(['t'], CafeRequestType.CafeStoreThreadRequest)] }) ∧
    handleHead brokenDbEnv [3] [] (worldWithHead []) =
      (.error (Err.ext 50),
        { head := some [], blocks := [], cas := [], trace := [Call.headRead],
          cafeOutbox := [] }) :=
  ⟨rfl,
    (handleHead_fastForward_iff demoEnv (worldWithHead ['a']) ['a'] [3] [['x'], ['a']] rfl).2.1
      (Or.inr (by decide)),
    (handleHead_fastForward_iff brokenDbEnv (worldWithHead []) [] [3] [] rfl).2.1
      (Or.inl rfl)⟩

/-- C2 counterexample: HEAD is the two-tip string `a,b` and the inbound block lists the tip
`a` as a parent, yet `handleHead` does not fast-forward: it hands over to `merge`, which
returns a merge hash and moves HEAD to the MERGE block `c`, not to the inbound block `d`. -/
theorem handleHead_multiTip_counterexample :
    (['a'] : Str) ∈ [['a']] ∧
    handleHead demoEnv [3] [['a']] (worldWithHead ['a', ',', 'b']) =
      demoEnv.merge [3] ((worldWithHead ['a', ',', 'b']).logCall Call.headRead) ∧
    handleHead demoEnv [3] [['a']] (worldWithHead ['a', ',', 'b']) =
      (.ok (some [2]),
        { head := some ['c'], blocks := [['c']], cas := [[2]], trace := [Call.headRead],
          cafeOutbox := [(['c'], CafeRequestType.CafeStoreRequest)] }) ∧
    (handleHead demoEnv [3] [['a']] (worldWithHead ['a', ',', 'b'])).2.head ≠
      some (demoEnv.b58 [3]) := by
  refine ⟨by decide, rfl, rfl, by decide⟩

/-- C2 (amended): the fast-forward test compares the whole HEAD string with each parent.
For a multi-tip HEAD `h1,h2` whose joined string is not itself an element of `parents`
(whether or not a single tip is), `handleHead` does not fast-forward: its result and state
are exactly those of `merge(inbound)`. -/
theorem handleHead_multiTip_merges (env : Env) (w : World) (h1 h2 : Str) (inbound : Multihash)
    (parents : List Str) (hw : w.head = some (h1 ++ ',' :: h2))
    (hnot : (h1 ++ ',' :: h2) ∉ parents) :
    fastForwardable (h1 ++ ',' :: h2) parents = false ∧
    handleHead env inbound parents w = env.merge inbound (w.logCall Call.headRead) := by
  have hne : ¬ (h1 ++ ',' :: h2 = [] ∨ (h1 ++ ',' :: h2) ∈ parents) := by
    rintro (h | h)
    · simp at h
    · exact hnot h
  have hb : fastForwardable (h1 ++ ',' :: h2) parents = false := by
    cases hq : fastForwardable (h1 ++ ',' :: h2) parents with
    | false => rfl
    | true => exact absurd ((fastForwardable_iff _ _).mp hq) hne
  exact ⟨hb, by simp [handleHead, Head, hw, hb]⟩

/-- C2 (amended) witness: HEAD `a,b`, parents `[a]`. -/
theorem handleHead_multiTip_merges_witness :
    fastForwardable (['a'] ++ ',' :: ['b']) [['a']] = false ∧
    handleHead demoEnv [3] [['a']] (worldWithHead (['a'] ++ ',' :: ['b'])) =
      demoEnv.merge [3] ((worldWithHead (['a'] ++ ',' :: ['b'])).logCall Call.headRead) :=
  handleHead_multiTip_merges demoEnv (worldWithHead (['a'] ++ ',' :: ['b'])) ['a'] ['b'] [3]
    [['a']] rfl (by decide)

/-- For an indexed hash `handleBlock` is the identity on the state and returns `(nil, nil)`. -/
theorem handleBlock_of_indexed (env : Env) (w : World) (hash : Multihash)
    (ciphertext : Bytes) (hidx : env.b58 hash ∈ w.blocks) :
    handleBlock env hash ciphertext w = (.ok none, w) := by
  simp [handleBlock, hidx]

/-- C3: for a hash that is already in the block index, `handleBlock` returns `(nil, nil)`
and leaves the whole state as it was: nothing is decrypted, nothing is put to the CAS,
no cafe request is enqueued, and the index, HEAD and outbox are untouched, so any number of
deliveries leaves the state the first one left. -/
theorem handleBlock_indexed_idempotent (env : Env) (w : World) (hash : Multihash)
    (ciphertext : Bytes) (hidx : env.b58 hash ∈ w.blocks) :
    handleBlock env hash ciphertext w = (.ok none, w) ∧
    ∀ n : Nat, (fun w1 => (handleBlock env hash ciphertext w1).2)^[n] w = w := by
  have h1 : handleBlock env hash ciphertext w = (.ok none, w) := by
    simp [handleBlock, hidx]
  refine ⟨h1, ?_⟩
  intro n
  induction n with
  | zero => rfl
  | succ k ih =>
    rw [Function.iterate_succ_apply, h1]
    exact ih

/-- C3 witness: the hash `[3]` (id `d`) is indexed; delivering it changes nothing. -/
theorem handleBlock_indexed_idempotent_witness :
    demoEnv.b58 [3] ∈ indexedWorld.blocks ∧
    handleBlock demoEnv [3] [0, 1] indexedWorld = (.ok none, indexedWorld) :=
  ⟨by decide, (handleBlock_indexed_idempotent demoEnv indexedWorld [3] [0, 1] (by decide)).1⟩

/-- The only error `addBlock` can return is a collaborator error. -/
theorem addBlock_error_ext (env : Env) (ciphertext : Bytes) (w : World) :
    (addBlock env ciphertext w).1 ≠ .error Err.nilMessagePayload := by
  intro h
  simp only [addBlock] at h
  cases hd : env.addData ciphertext (w.logCall (Call.addData ciphertext)) <;>
    rw [hd] at h <;> simp at h

/-- The tail of `handleBlock` rejects with the nil-payload error exactly on a nil payload of
a type other than MERGE and LEAVE. -/
theorem acceptBlock_nil_iff (env : Env) (ciphertext : Bytes) (block : ThreadBlock) (w : World) :
    (acceptBlock env ciphertext block w).1 = .error Err.nilMessagePayload ↔
      (block.payload = none ∧ block.type ≠ BlockType.MERGE ∧ block.type ≠ BlockType.LEAVE) := by
  unfold acceptBlock
  by_cases hc : block.payload = none ∧ block.type ≠ BlockType.MERGE ∧
      block.type ≠ BlockType.LEAVE
  · simp [hc]
  · rw [if_neg hc]
    have hne := addBlock_error_ext env ciphertext w
    constructor
    · intro h
      exfalso
      cases ha : addBlock env ciphertext w with
      | mk r w1 =>
        rw [ha] at h hne
        cases r with
        | error e => exact hne (by simpa using h)
        | ok v => simp at h
    · intro h
      exact absurd h hc

/-- C4: for a block that is not yet indexed and that decrypts and parses, `handleBlock`
returns the error "nil message payload" if and only if the payload is nil and the type is
neither MERGE nor LEAVE. -/
theorem handleBlock_nilPayload_iff (env : Env) (w : World) (hash : Multihash)
    (ciphertext plaintext : Bytes) (block : ThreadBlock)
    (hidx : env.b58 hash ∉ w.blocks)
    (hdec : env.decrypt ciphertext = .ok plaintext)
    (hparse : env.unmarshal plaintext = .ok block) :
    (handleBlock env hash ciphertext w).1 = .error Err.nilMessagePayload ↔
      (block.payload = none ∧ block.type ≠ BlockType.MERGE ∧ block.type ≠ BlockType.LEAVE) := by
  have h : handleBlock env hash ciphertext w =
      acceptBlock env ciphertext block (w.logCall (Call.decrypt ciphertext)) := by
    simp [handleBlock, hidx, hdec, hparse]
  rw [h]
  exact acceptBlock_nil_iff env ciphertext block _

/-- C4 witness: the fixture MESSAGE block with a nil payload is rejected. -/
theorem handleBlock_nilPayload_iff_witness :
    (handleBlock demoEnv [0, 4] [0, 4] (worldWithHead [])).1 = .error Err.nilMessagePayload :=
  (handleBlock_nilPayload_iff demoEnv (worldWithHead []) [0, 4] [0, 4] [4]
    { header := some { date := 8, parents := [['a']], author := ['q'] },
      type := BlockType.MESSAGE, payload := none }
    (by decide) rfl rfl).mpr (by decide)

/-- C5 counterexample: the fixture LEAVE block has a nil payload and a type other than MERGE,
and `handleBlock` accepts and returns it. -/
theorem handleBlock_leave_nil_counterexample :
    ∃ block w1,
      handleBlock demoEnv [0, 3] [0, 3] (worldWithHead []) = (.ok (some block), w1) ∧
      block.type ≠ BlockType.MERGE ∧ block.payload = none :=
  ⟨{ header := some { date := 7, parents := [['a']], author := ['q'] },
      type := BlockType.LEAVE, payload := none },
    { head := some [], blocks := [], cas := [[0, 3]],
      trace := [Call.decrypt [0, 3], Call.addData [0, 3]],
      cafeOutbox := [(['a', 'd'], CafeRequestType.CafeStoreRequest)] },
    rfl, by decide, rfl⟩

/-- Every block the tail of `handleBlock` returns passed the nil-payload check. -/
theorem acceptBlock_returns (env : Env) (ciphertext : Bytes) (block b : ThreadBlock)
    (w w1 : World) (h : acceptBlock env ciphertext block w = (.ok (some b), w1)) :
    b = block ∧
    (block.type = BlockType.MERGE ∨ block.type = BlockType.LEAVE ∨ block.payload ≠ none) ∧
    ∃ id, addBlock env ciphertext w = (.ok id, w1) := by
  unfold acceptBlock at h
  by_cases hc : block.payload = none ∧ block.type ≠ BlockType.MERGE ∧
      block.type ≠ BlockType.LEAVE
  · simp [hc] at h
  · rw [if_neg hc] at h
    cases ha : addBlock env ciphertext w with
    | mk r w2 =>
      rw [ha] at h
      cases r with
      | error e => simp at h
      | ok v =>
        simp only [Prod.mk.injEq, Except.ok.injEq, Option.some.injEq] at h
        refine ⟨h.1.symm, ?_, v, by rw [h.2]⟩
        by_contra hn
        push_neg at hn
        exact hc ⟨hn.2.2, hn.1, hn.2.1⟩

/-- Every block `handleBlock` returns is the block it parsed, it passed the nil-payload
check, and it was handed to `addBlock` with success. -/
theorem handleBlock_returns (env : Env) (hash : Multihash) (ciphertext : Bytes)
    (b : ThreadBlock) (w w1 : World)
    (h : handleBlock env hash ciphertext w = (.ok (some b), w1)) :
    (b.type = BlockType.MERGE ∨ b.type = BlockType.LEAVE ∨ b.payload ≠ none) ∧
    (∃ id, addBlock env ciphertext (w.logCall (Call.decrypt ciphertext)) = (.ok id, w1)) ∧
    ((∃ plaintext, env.decrypt ciphertext = .ok plaintext ∧ env.unmarshal plaintext = .ok b) ∨
      ((∃ e, env.decrypt ciphertext = .error e) ∧ env.unmarshal ciphertext = .ok b ∧
        b.type = BlockType.MERGE)) := by
  unfold handleBlock at h
  by_cases hidx : env.b58 hash ∈ w.blocks
  · simp [hidx] at h
  · rw [if_neg hidx] at h
    simp only at h
    cases hd : env.decrypt ciphertext with
    | error e =>
      rw [hd] at h
      simp only at h
      cases hu : env.unmarshal ciphertext with
      | error e2 => rw [hu] at h; simp at h
      | ok block =>
        rw [hu] at h
        simp only at h
        by_cases ht : block.type = BlockType.MERGE
        · rw [if_neg (not_not.mpr ht)] at h
          obtain ⟨hb, hp, hput⟩ := acceptBlock_returns env ciphertext block b _ w1 h
          subst hb
          exact ⟨hp, hput, Or.inr ⟨⟨e, rfl⟩, rfl, ht⟩⟩
        · rw [if_pos ht] at h
          simp at h
    | ok plaintext =>
      rw [hd] at h
      simp only at h
      cases hu : env.unmarshal plaintext with
      | error e2 => rw [hu] at h; simp at h
      | ok block =>
        rw [hu] at h
        simp only at h
        obtain ⟨hb, hp, hput⟩ := acceptBlock_returns env ciphertext block b _ w1 h
        subst hb
        exact ⟨hp, hput, Or.inl ⟨plaintext, rfl, hu⟩⟩

/-- C5 (amended): every block that `handleBlock` returns has type MERGE or type LEAVE, or
carries a non-nil payload. -/
theorem handleBlock_returned_payload (env : Env) (hash : Multihash) (ciphertext : Bytes)
    (b : ThreadBlock) (w w1 : World)
    (h : handleBlock env hash ciphertext w = (.ok (some b), w1)) :
    b.type = BlockType.MERGE ∨ b.type = BlockType.LEAVE ∨ b.payload ≠ none :=
  (handleBlock_returns env hash ciphertext b w w1 h).1

/-- C5 (amended) witness: the fixture MESSAGE block with payload `[9]` is returned. -/
theorem handleBlock_returned_payload_witness :
    handleBlock demoEnv [0, 1] [0, 1] (worldWithHead []) =
      (.ok (some { header := some { date := 5, parents := [], author := ['p'] },
                   type := BlockType.MESSAGE, payload := some [9] }),
        { head := some [], blocks := [], cas := [[0, 1]],
          trace := [Call.decrypt [0, 1], Call.addData [0, 1]],
          cafeOutbox := [(['a', 'b'], CafeRequestType.CafeStoreRequest)] }) ∧
    (BlockType.MESSAGE = BlockType.MERGE ∨ BlockType.MESSAGE = BlockType.LEAVE ∨
      (some [9] : Option Bytes) ≠ none) :=
  ⟨rfl,
    handleBlock_returned_payload demoEnv [0, 1] [0, 1]
      { header := some { date := 5, parents := [], author := ['p'] },
        type := BlockType.MESSAGE, payload := some [9] }
      (worldWithHead [])
      { head := some [], blocks := [], cas := [[0, 1]],
        trace := [Call.decrypt [0, 1], Call.addData [0, 1]],
        cafeOutbox := [(['a', 'b'], CafeRequestType.CafeStoreRequest)] }
      rfl⟩

/-- C6: for a ciphertext that is not yet indexed and whose thread-key decryption fails with
error `e`, `handleBlock` returns a block only if the ciphertext itself parses as a
`ThreadBlock` of type MERGE (and then returns that block once the CAS put succeeds); when the
ciphertext does not parse, or parses to another type, the result is the decryption error
`e` and no block, with nothing put to the CAS. -/
theorem handleBlock_decrypt_failure (env : Env) (w : World) (hash : Multihash)
    (ciphertext : Bytes) (e : Nat)
    (hidx : env.b58 hash ∉ w.blocks)
    (hdec : env.decrypt ciphertext = .error e) :
    (∀ b w1, handleBlock env hash ciphertext w = (.ok (some b), w1) →
      env.unmarshal ciphertext = .ok b ∧ b.type = BlockType.MERGE) ∧
    ((∀ b, env.unmarshal ciphertext = .ok b → b.type ≠ BlockType.MERGE) →
      handleBlock env hash ciphertext w =
        (.error (Err.ext e), w.logCall (Call.decrypt ciphertext))) ∧
    (∀ b id, env.unmarshal ciphertext = .ok b → b.type = BlockType.MERGE →
      env.addData ciphertext
        ((w.logCall (Call.decrypt ciphertext)).logCall (Call.addData ciphertext)) = .ok id →
      (handleBlock env hash ciphertext w).1 = .ok (some b)) := by
  refine ⟨?_, ?_, ?_⟩
  · intro b w1 h
    obtain ⟨_, _, hsrc⟩ := handleBlock_returns env hash ciphertext b w w1 h
    rcases hsrc with ⟨pt, hpt, _⟩ | ⟨_, hu, ht⟩
    · rw [hdec] at hpt
      cases hpt
    · exact ⟨hu, ht⟩
  · intro hno
    unfold handleBlock
    rw [if_neg hidx]
    simp only [hdec]
    cases hu : env.unmarshal ciphertext with
    | error e2 => rfl
    | ok block =>
      simp only
      rw [if_pos (hno block hu)]
  · intro b id hu ht hput
    unfold handleBlock
    rw [if_neg hidx]
    simp only [hdec, hu]
    rw [if_neg (not_not.mpr ht)]
    unfold acceptBlock
    rw [if_neg (by simp [ht])]
    simp [addBlock, hput]

/-- C6 witness: the cleartext MERGE fixture `[2]` does not decrypt and is returned; the
bytes `[7]` neither decrypt nor parse and yield the decryption error. -/
theorem handleBlock_decrypt_failure_witness :
    (handleBlock demoEnv [2] [2] (worldWithHead [])).1 =
      .ok (some { header := some { date := 6, parents := [['a'], ['b']], author := ['p'] },
                  type := BlockType.MERGE, payload := none }) ∧
    handleBlock demoEnv [7] [7] (worldWithHead []) =
      (.error (Err.ext 30), (worldWithHead []).logCall (Call.decrypt [7])) :=
  ⟨(handleBlock_decrypt_failure demoEnv (worldWithHead []) [2] [2] 30 (by decide) rfl).2.2
      { header := some { date := 6, parents := [['a'], ['b']], author := ['p'] },
        type := BlockType.MERGE, payload := none } [2] rfl rfl rfl,
    (handleBlock_decrypt_failure demoEnv (worldWithHead []) [7] [7] 30 (by decide) rfl).2.1
      (by intro b hb; cases hb)⟩

/-- C8: for a thread whose stored HEAD is `h` (and a clock that yields a timestamp),
`newBlockHeader` returns a header whose author is the local peer id and whose parents are
the empty list when `h` is empty and the comma-split of `h` otherwise.  Joining the parents
with a comma gives back `h`; an empty HEAD yields no parent and a non-empty HEAD without a
comma yields exactly the one parent `h`. -/
theorem newBlockHeader_parents (env : Env) (w : World) (h : Str) (d : Nat)
    (hw : w.head = some h)
    (hclock : env.timestampNow (w.logCall Call.headRead) = .ok d) :
    ∃ hd, newBlockHeader env w = (.ok hd, w.logCall Call.headRead) ∧
      hd.author = env.localPeerId ∧
      hd.date = d ∧
      hd.parents = (if h = [] then [] else h.splitOn ',') ∧
      [','].intercalate hd.parents = h ∧
      (h = [] → hd.parents = []) ∧
      (h ≠ [] → ',' ∉ h → hd.parents = [h]) := by
  refine ⟨{ date := d, parents := if h ≠ [] then h.splitOn ',' else [],
            author := env.localPeerId }, ?_, rfl, rfl, ?_, ?_, ?_, ?_⟩
  · simp [newBlockHeader, Head, hw, hclock]
  · by_cases hh : h = [] <;> simp [hh]
  · by_cases hh : h = []
    · subst hh
      simp [List.intercalate]
    · simp only [ne_eq, hh, not_false_eq_true, if_true]
      exact List.intercalate_splitOn h ','
  · intro hh
    simp [hh]
  · intro hh hc
    simp only [ne_eq, hh, not_false_eq_true, if_true]
    unfold List.splitOn
    apply List.splitOnP_eq_single
    intro x hx hxc
    have : x = ',' := by simpa using hxc
    exact hc (this ▸ hx)

/-- C8 witness: HEAD `ab,c` gives the parents `ab` and `c`, in that order. -/
theorem newBlockHeader_parents_witness :
    ∃ hd, newBlockHeader demoEnv (worldWithHead ['a', 'b', ',', 'c']) =
        (.ok hd, (worldWithHead ['a', 'b', ',', 'c']).logCall Call.headRead) ∧
      hd.author = ['p'] ∧ hd.parents = [['a', 'b'], ['c']] := by
  obtain ⟨hd, h1, h2, _, h4, _⟩ :=
    newBlockHeader_parents demoEnv (worldWithHead ['a', 'b', ',', 'c']) ['a', 'b', ',', 'c'] 5
      rfl rfl
  exact ⟨hd, h1, h2, by rw [h4]; decide⟩

/-- What a successful `commitBlock` with the default encryption did: it built a header,
wrapped the message, serialized and encrypted the block, and returned the ciphertext. -/
theorem commitBlock_ok (env : Env) (msg : Option Bytes) (mtype : BlockType) (w w1 : World)
    (res : commitResult) (h : commitBlock env msg mtype none w = (.ok res, w1)) :
    ∃ header payload plaintext w0,
      newBlockHeader env w = (.ok header, w0) ∧
      res.header = some header ∧
      (msg = none → payload = none) ∧
      (∀ m, msg = some m → ∃ p, env.marshalAny m = .ok p ∧ payload = some p) ∧
      env.marshal { header := some header, type := mtype, payload := payload } = .ok plaintext ∧
      env.encrypt plaintext = .ok res.ciphertext ∧
      addBlock env res.ciphertext w0 = (.ok res.hash, w1) := by
  unfold commitBlock at h
  cases hh : newBlockHeader env w with
  | mk r w0 =>
    rw [hh] at h
    cases r with
    | error e => simp at h
    | ok header =>
      simp only at h
      cases msg with
      | none =>
        simp only at h
        cases hm : env.marshal { header := some header, type := mtype, payload := none } with
        | error e => rw [hm] at h; simp at h
        | ok plaintext =>
          rw [hm] at h
          simp only at h
          cases he : env.encrypt plaintext with
          | error e => rw [he] at h; simp at h
          | ok ciphertext =>
            rw [he] at h
            simp only at h
            cases ha : addBlock env ciphertext w0 with
            | mk r2 w2 =>
              rw [ha] at h
              cases r2 with
              | error e => simp at h
              | ok hash =>
                simp only [Prod.mk.injEq, Except.ok.injEq] at h
                obtain ⟨hres, hw⟩ := h
                subst hres
                subst hw
                exact ⟨header, none, plaintext, w0, rfl, rfl, (fun _ => rfl), (by simp), hm, he, ha⟩
      | some m =>
        simp only at h
        cases hany : env.marshalAny m with
        | error e => rw [hany] at h; simp at h
        | ok p =>
          rw [hany] at h
          simp only at h
          cases hm : env.marshal { header := some header, type := mtype, payload := some p } with
          | error e => rw [hm] at h; simp at h
          | ok plaintext =>
            rw [hm] at h
            simp only at h
            cases he : env.encrypt plaintext with
            | error e => rw [he] at h; simp at h
            | ok ciphertext =>
              rw [he] at h
              simp only at h
              cases ha : addBlock env ciphertext w0 with
              | mk r2 w2 =>
                rw [ha] at h
                cases r2 with
                | error e => simp at h
                | ok hash =>
                  simp only [Prod.mk.injEq, Except.ok.injEq] at h
                  obtain ⟨hres, hw⟩ := h
                  subst hres
                  subst hw
                  exact ⟨header, some p, plaintext, w0, rfl, rfl, (by simp), (by simp [hany]), hm, he, ha⟩

/-- C7 (amended): commit then receive is a round trip.  Let the receiving thread decrypt what the
committing thread encrypts and parse what it serializes, and let the message be non-nil or
the type be MERGE or LEAVE.  If `commitBlock` with the default encryption returns
`(hash, ciphertext, header)`, then on a receiving thread whose index does not contain `hash`,
`handleBlock(hash, ciphertext)` parses a block with the committed header, type and wrapped
payload, passes the nil-payload check and returns that block as soon as the re-put of the
ciphertext to the receiver's CAS succeeds (a failed re-put is the only other outcome). -/
theorem commit_receive_roundtrip (env env2 : Env) (msg : Option Bytes) (mtype : BlockType)
    (w w1 w2 : World) (res : commitResult)
    (hcrypt : ∀ x c, env.encrypt x = .ok c → env2.decrypt c = .ok x)
    (hcodec : ∀ b bs, env.marshal b = .ok bs → env2.unmarshal bs = .ok b)
    (hmsg : msg ≠ none ∨ mtype = BlockType.MERGE ∨ mtype = BlockType.LEAVE)
    (hcommit : commitBlock env msg mtype none w = (.ok res, w1))
    (hidx : env2.b58 res.hash ∉ w2.blocks) :
    ∃ block : ThreadBlock,
      block.header = res.header ∧ block.header ≠ none ∧
      block.type = mtype ∧
      (msg = none → block.payload = none) ∧
      (∀ m, msg = some m → ∃ p, env.marshalAny m = .ok p ∧ block.payload = some p) ∧
      (∀ id, env2.addData res.ciphertext
          ((w2.logCall (Call.decrypt res.ciphertext)).logCall (Call.addData res.ciphertext))
            = .ok id →
        (handleBlock env2 res.hash res.ciphertext w2).1 = .ok (some block)) ∧
      (∀ e, env2.addData res.ciphertext
          ((w2.logCall (Call.decrypt res.ciphertext)).logCall (Call.addData res.ciphertext))
            = .error e →
        (handleBlock env2 res.hash res.ciphertext w2).1 = .error (Err.ext e)) := by
  obtain ⟨header, payload, plaintext, w0, _, hhd, hpay0, hpay, hm, he, _⟩ :=
    commitBlock_ok env msg mtype w w1 res hcommit
  have hd := hcrypt plaintext res.ciphertext he
  have hu := hcodec _ plaintext hm
  have hcheck : ¬ (payload = none ∧ mtype ≠ BlockType.MERGE ∧ mtype ≠ BlockType.LEAVE) := by
    rintro ⟨hp, h1, h2⟩
    rcases hmsg with hmsg | hmsg | hmsg
    · cases msg with
      | none => exact hmsg rfl
      | some m =>
        obtain ⟨p, _, hp2⟩ := hpay m rfl
        rw [hp] at hp2
        cases hp2
    · exact h1 hmsg
    · exact h2 hmsg
  have hrun : handleBlock env2 res.hash res.ciphertext w2 =
      match addBlock env2 res.ciphertext (w2.logCall (Call.decrypt res.ciphertext)) with
      | (.error e, w3) => (.error e, w3)
      | (.ok _, w3) =>
        (.ok (some { header := some header, type := mtype, payload := payload }), w3) := by
    unfold handleBlock
    rw [if_neg hidx]
    simp only [hd, hu]
    unfold acceptBlock
    rw [if_neg hcheck]
  refine ⟨{ header := some header, type := mtype, payload := payload }, hhd.symm, by simp,
    rfl, hpay0, hpay, ?_, ?_⟩
  · intro id hput
    rw [hrun]
    simp [addBlock, hput]
  · intro e hput
    rw [hrun]
    simp [addBlock, hput]

/-- The fixture codec parses what it serializes. -/
theorem fixture_codec (b : ThreadBlock) (bs : Bytes) (h : fixtureMarshal b = .ok bs) :
    fixtureUnmarshal bs = .ok b := by
  unfold fixtureMarshal at h
  split_ifs at h with h1 h2 h3 h4
  all_goals
    simp only [Except.ok.injEq] at h
    subst h
    simp only [fixtureUnmarshal]
  · rw [h1]
  · rw [h2]
  · rw [h3]
  · rw [h4]

/-- The fixture decryption undoes the fixture encryption. -/
theorem fixture_crypt (x c : Bytes) (h : demoEnv.encrypt x = .ok c) :
    demoEnv.decrypt c = .ok x := by
  simp only [demoEnv, Except.ok.injEq] at h
  subst h
  rfl

/-- The fixture decryption on the node with the failing CAS undoes the fixture encryption. -/
theorem fixture_crypt_fullCas (x c : Bytes) (h : demoEnv.encrypt x = .ok c) :
    fullCasEnv.decrypt c = .ok x := by
  simp only [demoEnv, Except.ok.injEq] at h
  subst h
  rfl

/-- The fixture codec on the node with the failing CAS parses what the sender serializes. -/
theorem fixture_codec_fullCas (b : ThreadBlock) (bs : Bytes) (h : demoEnv.marshal b = .ok bs) :
    fullCasEnv.unmarshal bs = .ok b :=
  fixture_codec b bs h

/-- C7 counterexample: both round-trip assumptions hold, the message is non-nil, the commit
returns hash and ciphertext `[0, 1]` and the receiver's index is empty; the receiver's
`ipfs.AddData` fails, and `handleBlock` returns that error and no block. -/
theorem commit_receive_put_failure_counterexample :
    (∀ x c, demoEnv.encrypt x = .ok c → fullCasEnv.decrypt c = .ok x) ∧
    (∀ b bs, demoEnv.marshal b = .ok bs → fullCasEnv.unmarshal bs = .ok b) ∧
    commitBlock demoEnv (some [9]) BlockType.MESSAGE none (worldWithHead []) =
      (.ok { hash := [0, 1], ciphertext := [0, 1],
             header := some { date := 5, parents := [], author := ['p'] } },
        { head := some [], blocks := [], cas := [[0, 1]],
          trace := [Call.headRead, Call.addData [0, 1]],
          cafeOutbox := [(['a', 'b'], CafeRequestType.CafeStoreRequest)] }) ∧
    fullCasEnv.b58 [0, 1] ∉ (worldWithHead []).blocks ∧
    handleBlock fullCasEnv [0, 1] [0, 1] (worldWithHead []) =
      (.error (Err.ext 20),
        { head := some [], blocks := [], cas := [], cafeOutbox := [],
          trace := [Call.decrypt [0, 1], Call.addData [0, 1]] }) :=
  ⟨fixture_crypt_fullCas, fixture_codec_fullCas, rfl, by decide, rfl⟩

/-- C7 (amended) witness: committing the message `[9]` as a MESSAGE block on an empty thread yields the
id and ciphertext `[0, 1]`; a second thread with an empty index receives it and gets back
a MESSAGE block with the committed header and payload. -/
theorem commit_receive_roundtrip_witness :
    commitBlock demoEnv (some [9]) BlockType.MESSAGE none (worldWithHead []) =
      (.ok { hash := [0, 1], ciphertext := [0, 1],
             header := some { date := 5, parents := [], author := ['p'] } },
        { head := some [], blocks := [], cas := [[0, 1]],
          trace := [Call.headRead, Call.addData [0, 1]],
          cafeOutbox := [(['a', 'b'], CafeRequestType.CafeStoreRequest)] }) ∧
    ∃ block : ThreadBlock,
      block.header = some { date := 5, parents := [], author := ['p'] } ∧
      block.type = BlockType.MESSAGE ∧
      (handleBlock demoEnv [0, 1] [0, 1] (worldWithHead [])).1 = .ok (some block) := by
  refine ⟨rfl, ?_⟩
  obtain ⟨block, hh, _, ht, _, _, hok, _⟩ :=
    commit_receive_roundtrip demoEnv demoEnv (some [9]) BlockType.MESSAGE (worldWithHead [])
      { head := some [], blocks := [], cas := [[0, 1]],
        trace := [Call.headRead, Call.addData [0, 1]],
        cafeOutbox := [(['a', 'b'], CafeRequestType.CafeStoreRequest)] }
      (worldWithHead [])
      { hash := [0, 1], ciphertext := [0, 1],
        header := some { date := 5, parents := [], author := ['p'] } }
      fixture_crypt fixture_codec (Or.inl (by simp)) rfl (by decide)
  exact ⟨block, hh, ht, hok [0, 1] rfl⟩

/-- C9, the code at the failing input: the parents `g` and `ab`, both valid base58.  The
blob `g` is a cleartext MERGE block without header; `handleBlock` accepts it, its handler
returns, and `followParent` then reads `block.Header.Parents` on the nil header.  The call
ends in a panic, not in a return, and the sibling `ab` is never fetched, although on its
own it is fetched, received and handled. -/
theorem followParents_nil_header_panics :
    nilHeaderEnv.fromB58 ['g'] = .ok [6] ∧ nilHeaderEnv.fromB58 ['a', 'b'] = .ok [0, 1] ∧
    followParents nilHeaderEnv 2 [['g'], ['a', 'b']] nilHeaderWorld =
      Run.panic
        { head := some ['h'], blocks := [['g']], cas := [[6], [0, 1], [6]],
          cafeOutbox := [(['g'], CafeRequestType.CafeStoreRequest)],
          trace := [Call.dataAtPath ['g'], Call.decrypt [6], Call.addData [6],
                    Call.handle BlockType.MERGE [6]] } ∧
    followParents nilHeaderEnv 2 [['a', 'b']] nilHeaderWorld =
      Run.ret (.ok ())
        { head := some ['h'], blocks := [['a', 'b']], cas := [[6], [0, 1], [0, 1]],
          cafeOutbox := [(['a', 'b'], CafeRequestType.CafeStoreRequest)],
          trace := [Call.dataAtPath ['a', 'b'], Call.decrypt [0, 1], Call.addData [0, 1],
                    Call.handle BlockType.MESSAGE [0, 1]] } :=
  ⟨rfl, rfl, rfl, rfl⟩

/-- C10 counterexample: the first parent `#` is not a base58 string.  `followParents`
returns the decode error at once and the state is untouched: the sibling `ab` is never
fetched, although on its own it is received, handled and indexed. -/
theorem followParents_malformed_counterexample :
    followParents demoEnv 2 [['#'], ['a', 'b']] casWorld =
      Run.ret (.error (Err.ext 58)) casWorld ∧
    followParents demoEnv 2 [['a', 'b']] casWorld =
      Run.ret (.ok ())
        { head := some [], blocks := [['a', 'b']], cas := [[0, 1], [0, 1]],
          cafeOutbox := [(['a', 'b'], CafeRequestType.CafeStoreRequest)],
          trace := [Call.dataAtPath ['a', 'b'], Call.decrypt [0, 1], Call.addData [0, 1],
                    Call.handle BlockType.MESSAGE [0, 1]] } :=
  ⟨rfl, rfl⟩

/-- The loop of `followParents` over a concatenation: the second part runs in the state the
first part left, unless the first part ended in an error, a panic or an exhausted budget. -/
theorem followParentsWith_append (env : Env) (fp : Multihash → World → Run Unit)
    (pre rest : List Str) (w : World) :
    followParentsWith env fp (pre ++ rest) w =
      match followParentsWith env fp pre w with
      | Run.ret (.ok _) w1 => followParentsWith env fp rest w1
      | Run.ret (.error e) w1 => Run.ret (.error e) w1
      | Run.panic w1 => Run.panic w1
      | Run.outOfFuel => Run.outOfFuel := by
  induction pre generalizing w with
  | nil => rfl
  | cons p ps ih =>
    by_cases hp : p = []
    · simp only [List.cons_append, followParentsWith, hp, if_true]
      exact ih w
    · simp only [List.cons_append, followParentsWith, hp, if_false]
      cases hd : env.fromB58 p with
      | error e => rfl
      | ok h =>
        simp only
        cases hf : fp h w with
        | ret r w1 => exact ih w1
        | panic w1 => rfl
        | outOfFuel => rfl

/-- C10 (amended): a failure of `followParent` on one parent (a CAS miss, a rejected block,
a handler error, an unknown type) is local, the later siblings are processed in the state
it left; a non-empty parent id that is not a valid base58 multihash is not: `followParents`
returns the decode error at that entry and processes none of the later siblings. -/
theorem followParents_failure_locality (env : Env) (fuel : Nat) (pre rest : List Str)
    (p : Str) (w w1 : World) (hp : p ≠ [])
    (hpre : followParents env fuel pre w = Run.ret (.ok ()) w1) :
    (∀ h e w2, env.fromB58 p = .ok h → followParent env fuel h w1 = Run.ret (.error e) w2 →
      followParents env fuel (pre ++ p :: rest) w = followParents env fuel rest w2) ∧
    (∀ e, env.fromB58 p = .error e →
      followParents env fuel (pre ++ p :: rest) w = Run.ret (.error (Err.ext e)) w1) := by
  unfold followParents at hpre ⊢
  constructor
  · intro h e w2 hd hf
    rw [followParentsWith_append, hpre]
    simp only [followParentsWith, hp, if_false, hd, hf]
  · intro e hd
    rw [followParentsWith_append, hpre]
    simp only [followParentsWith, hp, if_false, hd]

/-- C10 (amended) witness: after the genesis entry, the miss on `zz` leaves `ab` to be
processed, while the malformed `#` ends the call with the decode error. -/
theorem followParents_failure_locality_witness :
    followParents demoEnv 2 ([[]] ++ ['z', 'z'] :: [['a', 'b']]) casWorld =
      followParents demoEnv 2 [['a', 'b']] (casWorld.logCall (Call.dataAtPath ['z', 'z'])) ∧
    followParents demoEnv 2 ([[]] ++ ['#'] :: [['a', 'b']]) casWorld =
      Run.ret (.error (Err.ext 58)) casWorld :=
  ⟨(followParents_failure_locality demoEnv 2 [[]] [['a', 'b']] ['z', 'z'] casWorld casWorld
      (by decide) rfl).1 [25, 25] (Err.ext 21) _ rfl rfl,
    (followParents_failure_locality demoEnv 2 [[]] [['a', 'b']] ['#'] casWorld casWorld
      (by decide) rfl).2 58 rfl⟩

/-- What `handleBlock` leaves alone: the block index, HEAD, the threads outbox and the
peers; the trace grows by at most the decrypt call and the CAS put. -/
theorem handleBlock_frame (env : Env) (hash : Multihash) (ciphertext : Bytes) (w : World) :
    (handleBlock env hash ciphertext w).2.blocks = w.blocks ∧
    (handleBlock env hash ciphertext w).2.head = w.head ∧
    (handleBlock env hash ciphertext w).2.threadsOutbox = w.threadsOutbox ∧
    (handleBlock env hash ciphertext w).2.peers = w.peers ∧
    ((handleBlock env hash ciphertext w).2.trace = w.trace ∨
      (handleBlock env hash ciphertext w).2.trace = w.trace ++ [Call.decrypt ciphertext] ∨
      (handleBlock env hash ciphertext w).2.trace =
        w.trace ++ [Call.decrypt ciphertext, Call.addData ciphertext]) := by
  have hacc : ∀ block : ThreadBlock,
      (acceptBlock env ciphertext block (w.logCall (Call.decrypt ciphertext))).2.blocks
          = w.blocks ∧
      (acceptBlock env ciphertext block (w.logCall (Call.decrypt ciphertext))).2.head
          = w.head ∧
      (acceptBlock env ciphertext block (w.logCall (Call.decrypt ciphertext))).2.threadsOutbox
          = w.threadsOutbox ∧
      (acceptBlock env ciphertext block (w.logCall (Call.decrypt ciphertext))).2.peers
          = w.peers ∧
      ((acceptBlock env ciphertext block (w.logCall (Call.decrypt ciphertext))).2.trace
          = w.trace ∨
        (acceptBlock env ciphertext block (w.logCall (Call.decrypt ciphertext))).2.trace
          = w.trace ++ [Call.decrypt ciphertext] ∨
        (acceptBlock env ciphertext block (w.logCall (Call.decrypt ciphertext))).2.trace
          = w.trace ++ [Call.decrypt ciphertext, Call.addData ciphertext]) := by
    intro block
    unfold acceptBlock
    split
    · simp [World.logCall]
    · simp only [addBlock]
      cases env.addData ciphertext
          ((w.logCall (Call.decrypt ciphertext)).logCall (Call.addData ciphertext)) <;>
        simp [World.logCall]
  unfold handleBlock
  split
  · simp
  · simp only
    cases env.decrypt ciphertext with
    | error e =>
      simp only
      cases env.unmarshal ciphertext with
      | error e2 => simp [World.logCall]
      | ok block =>
        simp only
        split
        · simp [World.logCall]
        · exact hacc block
    | ok plaintext =>
      simp only
      cases env.unmarshal plaintext with
      | error e2 => simp [World.logCall]
      | ok block => exact hacc block

/-- C11: when the block received for a parent has a type outside the ten known ones,
`followParent` returns the "invalid message type" error in the state `handleBlock` left:
no per-type handler is dispatched, the parents of the block are not traversed (the trace
ends with the fetch, the decrypt and the CAS put of this one block), and the block index
and the thread HEAD are unchanged. -/
theorem followParent_unknown_type (env : Env) (fuel : Nat) (parent : Multihash) (w w2 : World)
    (ciphertext : Bytes) (block : ThreadBlock) (code : Nat)
    (hfetch : env.dataAtPath (env.b58 parent)
      (w.logCall (Call.dataAtPath (env.b58 parent))) = .ok ciphertext)
    (hrecv : handleBlock env parent ciphertext
      (w.logCall (Call.dataAtPath (env.b58 parent))) = (.ok (some block), w2))
    (htype : block.type = BlockType.other code) :
    followParent env (fuel + 1) parent w =
      Run.ret (.error (Err.invalidMessageType (BlockType.other code))) w2 ∧
    dispatch env parent block w2 = none ∧
    w2.blocks = w.blocks ∧ w2.head = w.head ∧
    w2.trace = w.trace ++
      [Call.dataAtPath (env.b58 parent), Call.decrypt ciphertext, Call.addData ciphertext] := by
  have hd : dispatch env parent block w2 = none := by
    simp [dispatch, htype]
  have hframe := handleBlock_frame env parent ciphertext
    (w.logCall (Call.dataAtPath (env.b58 parent)))
  obtain ⟨_, ⟨id, hput⟩, _⟩ := handleBlock_returns env parent ciphertext block _ w2 hrecv
  rw [hrecv] at hframe
  refine ⟨?_, hd, hframe.1, hframe.2.1, ?_⟩
  · simp only [followParent, hfetch, hrecv, hd, htype]
  · simp only [addBlock] at hput
    cases hadd : env.addData ciphertext
        (((w.logCall (Call.dataAtPath (env.b58 parent))).logCall
          (Call.decrypt ciphertext)).logCall (Call.addData ciphertext)) with
    | error e => rw [hadd] at hput; simp at hput
    | ok v =>
      rw [hadd] at hput
      simp only [Prod.mk.injEq, Except.ok.injEq] at hput
      rw [← hput.2]
      simp [World.logCall]

/-- C11 witness: the block `af` of type 42 is fetched and received, then rejected: no
handler runs, its parent `ab` is not fetched, index and HEAD stay as they were. -/
theorem followParent_unknown_type_witness :
    followParent unknownTypeEnv 3 [0, 5] unknownTypeWorld =
      Run.ret (.error (Err.invalidMessageType (BlockType.other 42)))
        { head := some ['h'], blocks := [], cas := [[0, 5], [0, 1], [0, 5]],
          cafeOutbox := [(['a', 'f'], CafeRequestType.CafeStoreRequest)],
          trace := [Call.dataAtPath ['a', 'f'], Call.decrypt [0, 5], Call.addData [0, 5]] } :=
  (followParent_unknown_type unknownTypeEnv 2 [0, 5] unknownTypeWorld
    { head := some ['h'], blocks := [], cas := [[0, 5], [0, 1], [0, 5]],
      cafeOutbox := [(['a', 'f'], CafeRequestType.CafeStoreRequest)],
      trace := [Call.dataAtPath ['a', 'f'], Call.decrypt [0, 5], Call.addData [0, 5]] }
    [0, 5]
    { header := some { date := 9, parents := [['a', 'b']], author := ['q'] },
      type := BlockType.other 42, payload := some [1] }
    42 rfl rfl rfl).1

/-- C12 counterexample: the id `ab` is in the block index but the CAS does not serve its
ciphertext; `followParent` returns the error of the fetch. -/
theorem followParent_indexed_fetch_counterexample :
    demoEnv.b58 [0, 1] ∈ indexedNoCasWorld.blocks ∧
    followParent demoEnv 1 [0, 1] indexedNoCasWorld =
      Run.ret (.error (Err.ext 21))
        { head := some ['a', 'b'], blocks := [['a', 'b']], cafeOutbox := [], cas := [],
          trace := [Call.dataAtPath ['a', 'b']] } :=
  ⟨by decide, rfl⟩

/-- C12 (amended): for a parent whose hash is already in the block index, `followParent` fetches the
ciphertext and stops: with the fetch successful it returns no error, with the fetch failing
it returns the error of the fetch, and in either case the only trace entry is the fetch, so
no per-type handler is dispatched, nothing is written to the index and the parents of the
block are not followed. -/
theorem followParent_indexed (env : Env) (fuel : Nat) (parent : Multihash) (w : World)
    (hidx : env.b58 parent ∈ w.blocks) :
    (∀ ciphertext, env.dataAtPath (env.b58 parent)
        (w.logCall (Call.dataAtPath (env.b58 parent))) = .ok ciphertext →
      followParent env (fuel + 1) parent w =
        Run.ret (.ok ()) (w.logCall (Call.dataAtPath (env.b58 parent)))) ∧
    (∀ e, env.dataAtPath (env.b58 parent)
        (w.logCall (Call.dataAtPath (env.b58 parent))) = .error e →
      followParent env (fuel + 1) parent w =
        Run.ret (.error (Err.ext e)) (w.logCall (Call.dataAtPath (env.b58 parent)))) := by
  have hidx2 : env.b58 parent ∈ (w.logCall (Call.dataAtPath (env.b58 parent))).blocks := hidx
  constructor
  · intro ciphertext hfetch
    have h := (handleBlock_of_indexed env _ parent ciphertext hidx2)
    simp only [followParent, hfetch, h]
  · intro e hfetch
    simp only [followParent, hfetch]

/-- C12 (amended) witness: `ab` is indexed and in the CAS; following it fetches it and nothing else. -/
theorem followParent_indexed_witness :
    demoEnv.b58 [0, 1] ∈ indexedCasWorld.blocks ∧
    followParent demoEnv 1 [0, 1] indexedCasWorld =
      Run.ret (.ok ()) (indexedCasWorld.logCall (Call.dataAtPath ['a', 'b'])) :=
  ⟨by decide, (followParent_indexed demoEnv 0 [0, 1] indexedCasWorld (by decide)).1 [0, 1] rfl⟩

/-- The loop of `post` touches nothing but the threads outbox. -/
theorem postLoop_frame (env : Env) (envelope : Envelope) (peers : List ThreadPeer) (w : World) :
    (postLoop env envelope peers w).2.peers = w.peers ∧
    (postLoop env envelope peers w).2.trace = w.trace ∧
    (postLoop env envelope peers w).2.head = w.head ∧
    (postLoop env envelope peers w).2.blocks = w.blocks ∧
    (postLoop env envelope peers w).2.cafeOutbox = w.cafeOutbox := by
  induction peers generalizing w with
  | nil => simp [postLoop]
  | cons tp rest ih =>
    simp only [postLoop]
    cases env.idB58Decode tp.id with
    | error e => simp
    | ok pid =>
      simp only
      cases env.outboxAdd pid envelope w with
      | some e => simp
      | none => exact ih _

/-- With every id decodable and every add successful, the loop of `post` appends one copy
of the envelope per peer, in list order. -/
theorem postLoop_all (env : Env) (envelope : Envelope) (peers : List ThreadPeer) (w : World)
    (hdec : ∀ tp ∈ peers, ∃ pid, env.idB58Decode tp.id = .ok pid)
    (hadd : ∀ tp ∈ peers, ∀ pid, env.idB58Decode tp.id = .ok pid →
      ∀ w1, env.outboxAdd pid envelope w1 = none) :
    ∃ pids, List.Forall₂ (fun tp pid => env.idB58Decode tp.id = .ok pid) peers pids ∧
      postLoop env envelope peers w =
        (.ok (), { w with
          threadsOutbox := w.threadsOutbox ++ pids.map (fun pid => (pid, envelope)) }) := by
  induction peers generalizing w with
  | nil => exact ⟨[], List.Forall₂.nil, by simp [postLoop]⟩
  | cons tp rest ih =>
    obtain ⟨pid, hpid⟩ := hdec tp (List.mem_cons_self _ _)
    obtain ⟨pids, hall, hrun⟩ :=
      ih { w with threadsOutbox := w.threadsOutbox ++ [(pid, envelope)] }
        (fun q hq => hdec q (List.mem_cons_of_mem _ hq))
        (fun q hq => hadd q (List.mem_cons_of_mem _ hq))
    refine ⟨pid :: pids, List.Forall₂.cons hpid hall, ?_⟩
    simp only [postLoop, hpid, hadd tp (List.mem_cons_self _ _) pid hpid w, hrun]
    simp

/-- C13 counterexample: the ids of the peers `b` and `d` decode and every outbox add
succeeds, but `NewEnvelope` fails: `post` returns that error and enqueues nothing. -/
theorem post_no_envelope_counterexample :
    noEnvelopeEnv.idB58Decode ['b'] = .ok [1] ∧ noEnvelopeEnv.idB58Decode ['d'] = .ok [3] ∧
    (∀ envelope w1, noEnvelopeEnv.outboxAdd [1] envelope w1 = none ∧
      noEnvelopeEnv.outboxAdd [3] envelope w1 = none) ∧
    post noEnvelopeEnv { hash := [0, 1], ciphertext := [0, 1], header := none }
        [{ id := ['b'], welcomed := false }, { id := ['d'], welcomed := false }]
        (worldWithHead ['a', 'b']) =
      (.error (Err.ext 77),
        { head := some ['a', 'b'], blocks := [], cafeOutbox := [], cas := [],
          threadsOutbox := [], trace := [Call.newEnvelope [0, 1] [0, 1]] }) :=
  ⟨rfl, rfl, fun _ _ => ⟨rfl, rfl⟩, rfl⟩

/-- C13 (amended): for a non-empty peers list in which every peer id decodes and every outbox add
succeeds, and an envelope service that returns an envelope, `post` builds one envelope from
the thread id, the commit hash and the commit ciphertext, appends exactly one copy of that
envelope per listed peer to the threads outbox, in list order, starts the flush and returns
no error. -/
theorem post_enqueues_all (env : Env) (commit : commitResult) (peers : List ThreadPeer)
    (w : World) (envelope : Envelope) (hne : peers ≠ [])
    (henv : env.newEnvelope env.threadId commit.hash commit.ciphertext = .ok envelope)
    (hdec : ∀ tp ∈ peers, ∃ pid, env.idB58Decode tp.id = .ok pid)
    (hadd : ∀ tp ∈ peers, ∀ pid, env.idB58Decode tp.id = .ok pid →
      ∀ w1, env.outboxAdd pid envelope w1 = none) :
    ∃ pids, List.Forall₂ (fun tp pid => env.idB58Decode tp.id = .ok pid) peers pids ∧
      pids.length = peers.length ∧
      post env commit peers w =
        (.ok (), { w with
          threadsOutbox := w.threadsOutbox ++ pids.map (fun pid => (pid, envelope))
          trace := w.trace ++
            [Call.newEnvelope commit.hash commit.ciphertext, Call.threadsFlush] }) := by
  obtain ⟨pids, hall, hrun⟩ := postLoop_all env envelope peers
    (w.logCall (Call.newEnvelope commit.hash commit.ciphertext)) hdec hadd
  refine ⟨pids, hall, hall.length_eq.symm, ?_⟩
  have hlen : ¬ peers.length = 0 := by
    intro h
    exact hne (List.length_eq_zero.mp h)
  simp only [post, hlen, if_false, henv, hrun]
  simp [World.logCall]

/-- C13 (amended) witness: the commit `([0, 1], [0, 1])` posted to the peers `b` and `d`. -/
theorem post_enqueues_all_witness :
    post demoEnv { hash := [0, 1], ciphertext := [0, 1], header := none }
        [{ id := ['b'], welcomed := false }, { id := ['d'], welcomed := false }]
        (worldWithHead ['a', 'b']) =
      (.ok (),
        { head := some ['a', 'b'], blocks := [], cafeOutbox := [], cas := [],
          threadsOutbox := [([1], [116, 0, 0, 1, 0, 0, 1]), ([3], [116, 0, 0, 1, 0, 0, 1])],
          trace := [Call.newEnvelope [0, 1] [0, 1], Call.threadsFlush] }) := by
  obtain ⟨pids, hall, _, hrun⟩ :=
    post_enqueues_all demoEnv { hash := [0, 1], ciphertext := [0, 1], header := none }
      [{ id := ['b'], welcomed := false }, { id := ['d'], welcomed := false }]
      (worldWithHead ['a', 'b']) [116, 0, 0, 1, 0, 0, 1] (by simp) rfl
      (by
        intro tp htp
        simp only [List.mem_cons, List.mem_singleton, List.not_mem_nil, or_false] at htp
        rcases htp with rfl | rfl
        · exact ⟨[1], rfl⟩
        · exact ⟨[3], rfl⟩)
      (by
        intro tp htp pid hpid w1
        simp only [List.mem_cons, List.mem_singleton, List.not_mem_nil, or_false] at htp
        rcases htp with rfl | rfl
        · cases hpid
          rfl
        · cases hpid
          rfl)
  rfl

/-- C14: with an empty peers list `post` flushes the cafe outbox and returns no error; no
envelope is built and nothing is added to the threads outbox (the state changes by the one
trace entry of the flush). -/
theorem post_no_peers (env : Env) (commit : commitResult) (w : World) :
    post env commit [] w = (.ok (), w.logCall Call.cafeFlush) ∧
    (post env commit [] w).2.threadsOutbox = w.threadsOutbox ∧
    (post env commit [] w).2.trace = w.trace ++ [Call.cafeFlush] := by
  simp [post, World.logCall]

/-- Method `post` never changes a welcomed flag and never calls `WelcomeByThread`. -/
theorem post_frame (env : Env) (commit : commitResult) (peers : List ThreadPeer) (w : World) :
    (post env commit peers w).2.peers = w.peers ∧
    (post env commit peers w).2.trace.count Call.welcomeByThread =
      w.trace.count Call.welcomeByThread := by
  unfold post
  split
  · simp [World.logCall]
  · simp only
    cases env.newEnvelope env.threadId commit.hash commit.ciphertext with
    | error e => simp [World.logCall]
    | ok envelope =>
      simp only
      have hf := postLoop_frame env envelope peers
        (w.logCall (Call.newEnvelope commit.hash commit.ciphertext))
      cases hl : postLoop env envelope peers
          (w.logCall (Call.newEnvelope commit.hash commit.ciphertext)) with
      | mk r w2 =>
        rw [hl] at hf
        simp only at hf
        cases r with
        | error e => simp [hf.1, hf.2.1, World.logCall]
        | ok v => simp [hf.1, hf.2.1, World.logCall]

/-- Every run of `sendWelcome` either reaches `WelcomeByThread` after a successful `post` to
the full list of unwelcomed peers, or leaves every welcomed flag alone and does not call
`WelcomeByThread`. -/
theorem sendWelcome_cases (env : Env) (w : World) :
    (∃ head ciphertext hash w3,
      ListUnwelcomedByThread w ≠ [] ∧ w.head = some head ∧ head ≠ [] ∧
      env.dataAtPath head ((w.logCall Call.headRead).logCall (Call.dataAtPath head))
        = .ok ciphertext ∧
      env.fromB58 head = .ok hash ∧
      post env { hash := hash, ciphertext := ciphertext, header := none }
        (ListUnwelcomedByThread w)
        ((w.logCall Call.headRead).logCall (Call.dataAtPath head)) = (.ok (), w3) ∧
      sendWelcome env w = WelcomeByThread env w3) ∨
    ((sendWelcome env w).2.peers = w.peers ∧
      (sendWelcome env w).2.trace.count Call.welcomeByThread =
        w.trace.count Call.welcomeByThread) := by
  unfold sendWelcome
  by_cases hl : (ListUnwelcomedByThread w).length = 0
  · right
    simp [hl]
  · have hne : ListUnwelcomedByThread w ≠ [] := fun h => hl (by simp [h])
    simp only [hl, if_false, Head]
    cases hh : w.head with
    | none => right; simp [World.logCall]
    | some head =>
      simp only
      by_cases he : head = []
      · right
        simp [he, World.logCall]
      · simp only [he, if_false]
        cases hd : env.dataAtPath head
            ((w.logCall Call.headRead).logCall (Call.dataAtPath head)) with
        | error e => right; simp [World.logCall]
        | ok ciphertext =>
          simp only
          cases hb : env.fromB58 head with
          | error e => right; simp [World.logCall]
          | ok hash =>
            simp only
            have hf := post_frame env { hash := hash, ciphertext := ciphertext, header := none }
              (ListUnwelcomedByThread w)
              ((w.logCall Call.headRead).logCall (Call.dataAtPath head))
            cases hp : post env { hash := hash, ciphertext := ciphertext, header := none }
                (ListUnwelcomedByThread w)
                ((w.logCall Call.headRead).logCall (Call.dataAtPath head)) with
            | mk r w3 =>
              rw [hp] at hf
              cases r with
              | error e =>
                right
                simp only at hf ⊢
                rw [hf.1, hf.2]
                simp [World.logCall]
              | ok v =>
                left
                refine ⟨head, ciphertext, hash, w3, hne, rfl, he, hd, hb, hp, ?_⟩
                simp only
                cases hw : WelcomeByThread env w3 with
                | mk r4 w4 => cases r4 <;> simp only

/-- C15: welcome completeness.  In every run of `sendWelcome`, `WelcomeByThread` is called
(and a welcomed flag can change) only after `post` has returned without error for the full
list of previously unwelcomed peers; when reading HEAD fails, HEAD is empty, fetching the
HEAD ciphertext fails, decoding the HEAD hash fails or `post` fails, no welcomed flag is
changed and `WelcomeByThread` is not called. -/
theorem sendWelcome_completeness (env : Env) (w : World) :
    (((sendWelcome env w).2.peers ≠ w.peers ∨
        (sendWelcome env w).2.trace.count Call.welcomeByThread ≠
          w.trace.count Call.welcomeByThread) →
      ∃ head ciphertext hash w3,
        ListUnwelcomedByThread w ≠ [] ∧ w.head = some head ∧ head ≠ [] ∧
        env.dataAtPath head ((w.logCall Call.headRead).logCall (Call.dataAtPath head))
          = .ok ciphertext ∧
        env.fromB58 head = .ok hash ∧
        post env { hash := hash, ciphertext := ciphertext, header := none }
          (ListUnwelcomedByThread w)
          ((w.logCall Call.headRead).logCall (Call.dataAtPath head)) = (.ok (), w3) ∧
        sendWelcome env w = WelcomeByThread env w3) ∧
    ((w.head = none ∨ w.head = some [] ∨
        (∃ head e, w.head = some head ∧
          env.dataAtPath head ((w.logCall Call.headRead).logCall (Call.dataAtPath head))
            = .error e) ∨
        (∃ head e, w.head = some head ∧ env.fromB58 head = .error e) ∨
        (∃ head ciphertext hash e w3, w.head = some head ∧
          env.dataAtPath head ((w.logCall Call.headRead).logCall (Call.dataAtPath head))
            = .ok ciphertext ∧
          env.fromB58 head = .ok hash ∧
          post env { hash := hash, ciphertext := ciphertext, header := none }
            (ListUnwelcomedByThread w)
            ((w.logCall Call.headRead).logCall (Call.dataAtPath head)) = (.error e, w3))) →
      (sendWelcome env w).2.peers = w.peers ∧
      (sendWelcome env w).2.trace.count Call.welcomeByThread =
        w.trace.count Call.welcomeByThread) := by
  constructor
  · intro hcalled
    rcases sendWelcome_cases env w with h | h
    · exact h
    · rcases hcalled with hc | hc
      · exact absurd h.1 hc
      · exact absurd h.2 hc
  · intro hfail
    rcases sendWelcome_cases env w with h | h
    · exfalso
      obtain ⟨head, ciphertext, hash, w3, _, hh, hne, hd, hb, hp, _⟩ := h
      rcases hfail with hf | hf | ⟨head2, e, hh2, hd2⟩ | ⟨head2, e, hh2, hb2⟩ |
          ⟨head2, ct2, hash2, e, w5, hh2, hd2, hb2, hp2⟩
      · rw [hh] at hf
        cases hf
      · rw [hh] at hf
        cases hf
        exact hne rfl
      · rw [hh] at hh2
        cases hh2
        rw [hd] at hd2
        cases hd2
      · rw [hh] at hh2
        cases hh2
        rw [hb] at hb2
        cases hb2
      · rw [hh] at hh2
        cases hh2
        rw [hd] at hd2
        cases hd2
        rw [hb] at hb2
        cases hb2
        rw [hp] at hp2
        cases hp2
    · exact h

/-- C15 witness: in `welcomeWorld` the flags change, after `post` enqueued the HEAD block for
the two unwelcomed peers `b` and `d`; with the id `z`, whose outbox add fails, they do not. -/
theorem sendWelcome_completeness_witness :
    (sendWelcome demoEnv welcomeWorld).2.peers ≠ welcomeWorld.peers ∧
    (∃ w3, post demoEnv { hash := [0, 1], ciphertext := [0, 1], header := none }
        [{ id := ['b'], welcomed := false }, { id := ['d'], welcomed := false }]
        ((welcomeWorld.logCall Call.headRead).logCall (Call.dataAtPath ['a', 'b']))
          = (.ok (), w3) ∧
      w3.threadsOutbox = [([1], [116, 0, 0, 1, 0, 0, 1]), ([3], [116, 0, 0, 1, 0, 0, 1])]) ∧
    (sendWelcome demoEnv
      { welcomeWorld with peers := [{ id := ['z'], welcomed := false }] }).2.peers =
        [{ id := ['z'], welcomed := false }] := by
  refine ⟨by decide, ?_, ?_⟩
  · obtain ⟨head, ciphertext, hash, w3, _, hh, _, hd, hb, hp, _⟩ :=
      (sendWelcome_completeness demoEnv welcomeWorld).1 (Or.inl (by decide))
    cases hh
    cases hd
    cases hb
    refine ⟨w3, hp, ?_⟩
    have hq : w3 = (post demoEnv { hash := [0, 1], ciphertext := [0, 1], header := none }
        [{ id := ['b'], welcomed := false }, { id := ['d'], welcomed := false }]
        ((welcomeWorld.logCall Call.headRead).logCall (Call.dataAtPath ['a', 'b']))).2 :=
      (congrArg Prod.snd hp).symm
    rw [hq]
    rfl
  · exact ((sendWelcome_completeness demoEnv
      { welcomeWorld with peers := [{ id := ['z'], welcomed := false }] }).2
      (Or.inr (Or.inr (Or.inr (Or.inr
        ⟨['a', 'b'], [0, 1], [0, 1], Err.ext 60, _, rfl, rfl, rfl, rfl⟩))))).1

/-- C16: with no unwelcomed peers `sendWelcome` returns no error and leaves the whole state
as it was: HEAD is not read, nothing is fetched, no envelope is built or enqueued and no
welcomed flag changes.  That is the case directly after a successful `WelcomeByThread`,
which leaves no peer unwelcomed, so re-invoking `sendWelcome` then is a no-op. -/
theorem sendWelcome_noop (env : Env) (w : World) (hnone : ListUnwelcomedByThread w = []) :
    sendWelcome env w = (.ok (), w) ∧
    (∀ w3, env.dbWelcome (w3.logCall Call.welcomeByThread) = none →
      ListUnwelcomedByThread (WelcomeByThread env w3).2 = [] ∧
      sendWelcome env (WelcomeByThread env w3).2 = (.ok (), (WelcomeByThread env w3).2)) := by
  have hnoop : ∀ v : World, ListUnwelcomedByThread v = [] → sendWelcome env v = (.ok (), v) := by
    intro v hv
    simp [sendWelcome, hv]
  refine ⟨hnoop w hnone, ?_⟩
  intro w3 hdb
  have hl : ListUnwelcomedByThread (WelcomeByThread env w3).2 = [] := by
    simp only [WelcomeByThread, hdb, ListUnwelcomedByThread]
    rw [List.filter_eq_nil_iff]
    intro p hp
    simp only [List.mem_map] at hp
    obtain ⟨q, _, rfl⟩ := hp
    simp
  exact ⟨hl, hnoop _ hl⟩

/-- C16 witness: after the successful welcome in `welcomeWorld`, a second `sendWelcome`
changes nothing. -/
theorem sendWelcome_noop_witness :
    ListUnwelcomedByThread (sendWelcome demoEnv welcomeWorld).2 = [] ∧
    sendWelcome demoEnv (sendWelcome demoEnv welcomeWorld).2 =
      (.ok (), (sendWelcome demoEnv welcomeWorld).2) :=
  ⟨by decide, (sendWelcome_noop demoEnv (sendWelcome demoEnv welcomeWorld).2 (by decide)).1⟩

/-- Method `commitBlock` as the chain of its steps. -/
theorem commitBlock_steps (env : Env) (msg : Option Bytes) (mtype : BlockType)
    (encrypt : Option (Bytes → Except Nat Bytes)) (w : World) :
    commitBlock env msg mtype encrypt w =
      match newBlockHeader env w with
      | (.error e, w1) => (.error e, w1)
      | (.ok header, w1) =>
        match wrapMessage env msg with
        | .error e => (.error (Err.ext e), w1)
        | .ok payload =>
          match env.marshal { header := some header, type := mtype, payload := payload } with
          | .error e => (.error (Err.ext e), w1)
          | .ok plaintext =>
            match encryptWith env encrypt plaintext with
            | .error e => (.error (Err.ext e), w1)
            | .ok ciphertext =>
              match addBlock env ciphertext w1 with
              | (.error e, w2) => (.error e, w2)
              | (.ok hash, w2) =>
                (.ok { hash := hash, ciphertext := ciphertext, header := some header }, w2) := by
  cases msg <;> cases encrypt <;> rfl

/-- The state `newBlockHeader` leaves is the given one with the HEAD read recorded. -/
theorem newBlockHeader_world (env : Env) (w : World) :
    (newBlockHeader env w).2 = w.logCall Call.headRead := by
  unfold newBlockHeader Head
  cases w.head with
  | none => rfl
  | some h =>
    simp only
    cases env.timestampNow (w.logCall Call.headRead) <;> rfl

/-- C17: for every successful `commitBlock`, the returned hash is the id `ipfs.AddData` gave
for exactly the returned ciphertext, the ciphertext is the encryption (the supplied one, or
the thread key when none is supplied) of the serialized block built from the returned
header, the given type and the wrapped payload, exactly one `CafeStoreRequest` keyed by
the base58 string of the hash is enqueued, and HEAD and the index are not modified.  The
commit does succeed, with that result and that state, whenever the header is built, the
message wrapped, the block serialized and encrypted and the blob put.  If header
construction, payload wrapping, serialization or encryption fails, the error is returned
with nothing put to the CAS and nothing enqueued. -/
theorem commitBlock_result (env : Env) (msg : Option Bytes) (mtype : BlockType)
    (encrypt : Option (Bytes → Except Nat Bytes)) (w : World) :
    (∀ res w1, commitBlock env msg mtype encrypt w = (.ok res, w1) →
      ∃ header payload plaintext,
        newBlockHeader env w = (.ok header, w.logCall Call.headRead) ∧
        res.header = some header ∧
        wrapMessage env msg = .ok payload ∧
        env.marshal { header := some header, type := mtype, payload := payload }
          = .ok plaintext ∧
        encryptWith env encrypt plaintext = .ok res.ciphertext ∧
        env.addData res.ciphertext
          ((w.logCall Call.headRead).logCall (Call.addData res.ciphertext)) = .ok res.hash ∧
        w1 = { w with
          cas := w.cas ++ [res.ciphertext]
          cafeOutbox := w.cafeOutbox ++ [(env.b58 res.hash, CafeRequestType.CafeStoreRequest)]
          trace := w.trace ++ [Call.headRead, Call.addData res.ciphertext] }) ∧
    (∀ header payload plaintext ciphertext hash, (newBlockHeader env w).1 = .ok header →
      wrapMessage env msg = .ok payload →
      env.marshal { header := some header, type := mtype, payload := payload }
        = .ok plaintext →
      encryptWith env encrypt plaintext = .ok ciphertext →
      env.addData ciphertext
        ((w.logCall Call.headRead).logCall (Call.addData ciphertext)) = .ok hash →
      commitBlock env msg mtype encrypt w =
        (.ok { hash := hash, ciphertext := ciphertext, header := some header },
          { w with
            cas := w.cas ++ [ciphertext]
            cafeOutbox := w.cafeOutbox ++ [(env.b58 hash, CafeRequestType.CafeStoreRequest)]
            trace := w.trace ++ [Call.headRead, Call.addData ciphertext] })) ∧
    (∀ e, (newBlockHeader env w).1 = .error e →
      commitBlock env msg mtype encrypt w = (.error e, w.logCall Call.headRead)) ∧
    (∀ header e, (newBlockHeader env w).1 = .ok header → wrapMessage env msg = .error e →
      commitBlock env msg mtype encrypt w = (.error (Err.ext e), w.logCall Call.headRead)) ∧
    (∀ header payload e, (newBlockHeader env w).1 = .ok header →
      wrapMessage env msg = .ok payload →
      env.marshal { header := some header, type := mtype, payload := payload } = .error e →
      commitBlock env msg mtype encrypt w = (.error (Err.ext e), w.logCall Call.headRead)) ∧
    (∀ header payload plaintext e, (newBlockHeader env w).1 = .ok header →
      wrapMessage env msg = .ok payload →
      env.marshal { header := some header, type := mtype, payload := payload }
        = .ok plaintext →
      encryptWith env encrypt plaintext = .error e →
      commitBlock env msg mtype encrypt w = (.error (Err.ext e), w.logCall Call.headRead)) := by
  have hw := newBlockHeader_world env w
  rw [commitBlock_steps]
  cases hh : newBlockHeader env w with
  | mk r w0 =>
    rw [hh] at hw
    simp only at hw
    subst hw
    refine ⟨?_, ?_, ?_, ?_, ?_, ?_⟩
    · intro res w1 h
      cases r with
      | error e => simp at h
      | ok header =>
        simp only at h
        cases hp : wrapMessage env msg with
        | error e => rw [hp] at h; simp at h
        | ok payload =>
          rw [hp] at h
          simp only at h
          cases hm : env.marshal { header := some header, type := mtype, payload := payload } with
          | error e => rw [hm] at h; simp at h
          | ok plaintext =>
            rw [hm] at h
            simp only at h
            cases he : encryptWith env encrypt plaintext with
            | error e => rw [he] at h; simp at h
            | ok ciphertext =>
              rw [he] at h
              simp only [addBlock] at h
              cases ha : env.addData ciphertext
                  ((w.logCall Call.headRead).logCall (Call.addData ciphertext)) with
              | error e => rw [ha] at h; simp at h
              | ok hash =>
                rw [ha] at h
                simp only [Prod.mk.injEq, Except.ok.injEq] at h
                obtain ⟨hres, hw1⟩ := h
                subst hres
                subst hw1
                refine ⟨header, payload, plaintext, rfl, rfl, rfl, hm, he, ha, ?_⟩
                simp [World.logCall]
    · intro header payload plaintext ciphertext hash h hp hm he ha
      simp only at h
      subst h
      simp only [hp, hm, he, addBlock, ha]
      simp [World.logCall]
    · intro e h
      simp only at h
      subst h
      rfl
    · intro header e h hp
      simp only at h
      subst h
      simp only [hp]
    · intro header payload e h hp hm
      simp only at h
      subst h
      simp only [hp, hm]
    · intro header payload plaintext e h hp hm he
      simp only at h
      subst h
      simp only [hp, hm, he]

/-- C17 witness: the commit of the message `[9]` on an empty thread succeeds with hash and
ciphertext `[0, 1]`, one blob put and one store request enqueued; a commit whose
encryption function fails puts and enqueues nothing. -/
theorem commitBlock_result_witness :
    commitBlock demoEnv (some [9]) BlockType.MESSAGE none (worldWithHead []) =
      (.ok { hash := [0, 1], ciphertext := [0, 1],
             header := some { date := 5, parents := [], author := ['p'] } },
        { head := some [], blocks := [], cas := [[0, 1]],
          trace := [Call.headRead, Call.addData [0, 1]],
          cafeOutbox := [(['a', 'b'], CafeRequestType.CafeStoreRequest)] }) ∧
    (∃ header payload plaintext,
      newBlockHeader demoEnv (worldWithHead []) =
        (.ok header, (worldWithHead []).logCall Call.headRead) ∧
      wrapMessage demoEnv (some [9]) = .ok payload ∧
      demoEnv.marshal { header := some header, type := BlockType.MESSAGE, payload := payload }
        = .ok plaintext ∧
      encryptWith demoEnv none plaintext = .ok [0, 1] ∧
      demoEnv.addData [0, 1]
        (((worldWithHead []).logCall Call.headRead).logCall (Call.addData [0, 1])) = .ok [0, 1]) ∧
    commitBlock demoEnv (some [9]) BlockType.MESSAGE (some (fun _ => .error 70))
        (worldWithHead []) =
      (.error (Err.ext 70), (worldWithHead []).logCall Call.headRead) := by
  refine ⟨?_, ?_, ?_⟩
  · exact (commitBlock_result demoEnv (some [9]) BlockType.MESSAGE none
      (worldWithHead [])).2.1
      { date := 5, parents := [], author := ['p'] } (some [9]) [1] [0, 1] [0, 1]
      rfl rfl rfl rfl rfl
  · obtain ⟨header, payload, plaintext, h1, _, h3, h4, h5, h6, _⟩ :=
      (commitBlock_result demoEnv (some [9]) BlockType.MESSAGE none (worldWithHead [])).1
        { hash := [0, 1], ciphertext := [0, 1],
          header := some { date := 5, parents := [], author := ['p'] } }
        { head := some [], blocks := [], cas := [[0, 1]],
          trace := [Call.headRead, Call.addData [0, 1]],
          cafeOutbox := [(['a', 'b'], CafeRequestType.CafeStoreRequest)] }
        rfl
    exact ⟨header, payload, plaintext, h1, h3, h4, h5, h6⟩
  · exact (commitBlock_result demoEnv (some [9]) BlockType.MESSAGE (some (fun _ => .error 70))
      (worldWithHead [])).2.2.2.2.2
      { date := 5, parents := [], author := ['p'] } (some [9]) [1] 70 rfl rfl rfl rfl

/-- C20: a block that `handleBlock` rejects is discarded before any side effect.  For an
input that is not yet indexed, when decryption fails and the ciphertext is not a cleartext
MERGE block, when the plaintext does not parse, or when the parsed block has a nil payload
that its type does not allow, the error is returned in a state that differs from the given
one by the decrypt call alone: no CAS put is attempted and no cafe store request is
enqueued.  Conversely every block `handleBlock` returns has had its ciphertext put to the
CAS with success, and the one store request enqueued. -/
theorem handleBlock_reject_no_effect (env : Env) (hash : Multihash) (ciphertext : Bytes)
    (w : World) (hidx : env.b58 hash ∉ w.blocks) :
    (∀ e, env.decrypt ciphertext = .error e →
      (∀ b, env.unmarshal ciphertext = .ok b → b.type ≠ BlockType.MERGE) →
      handleBlock env hash ciphertext w =
        (.error (Err.ext e), w.logCall (Call.decrypt ciphertext))) ∧
    (∀ plaintext e, env.decrypt ciphertext = .ok plaintext →
      env.unmarshal plaintext = .error e →
      handleBlock env hash ciphertext w =
        (.error (Err.ext e), w.logCall (Call.decrypt ciphertext))) ∧
    (∀ plaintext b, env.decrypt ciphertext = .ok plaintext →
      env.unmarshal plaintext = .ok b →
      b.payload = none → b.type ≠ BlockType.MERGE → b.type ≠ BlockType.LEAVE →
      handleBlock env hash ciphertext w =
        (.error Err.nilMessagePayload, w.logCall (Call.decrypt ciphertext))) ∧
    (∀ b w1, handleBlock env hash ciphertext w = (.ok (some b), w1) →
      ∃ id, env.addData ciphertext
          ((w.logCall (Call.decrypt ciphertext)).logCall (Call.addData ciphertext)) = .ok id ∧
        w1 = { w with
          cas := w.cas ++ [ciphertext]
          cafeOutbox := w.cafeOutbox ++ [(env.b58 id, CafeRequestType.CafeStoreRequest)]
          trace := w.trace ++ [Call.decrypt ciphertext, Call.addData ciphertext] }) := by
  refine ⟨?_, ?_, ?_, ?_⟩
  · intro e hd hno
    unfold handleBlock
    rw [if_neg hidx]
    simp only [hd]
    cases hu : env.unmarshal ciphertext with
    | error e2 => rfl
    | ok block =>
      simp only
      rw [if_pos (hno block hu)]
  · intro plaintext e hd hu
    simp [handleBlock, hidx, hd, hu]
  · intro plaintext b hd hu hp h1 h2
    unfold handleBlock
    rw [if_neg hidx]
    simp only [hd, hu]
    unfold acceptBlock
    rw [if_pos ⟨hp, h1, h2⟩]
  · intro b w1 h
    obtain ⟨_, ⟨id, hput⟩, _⟩ := handleBlock_returns env hash ciphertext b w w1 h
    simp only [addBlock] at hput
    cases ha : env.addData ciphertext
        ((w.logCall (Call.decrypt ciphertext)).logCall (Call.addData ciphertext)) with
    | error e => rw [ha] at hput; simp at hput
    | ok v =>
      rw [ha] at hput
      simp only [Prod.mk.injEq, Except.ok.injEq] at hput
      refine ⟨v, rfl, ?_⟩
      rw [← hput.2]
      simp [World.logCall]

/-- C20 witness: the bytes `[7]` neither decrypt nor parse and leave the CAS and the cafe
outbox empty; the encrypted MESSAGE fixture is returned with its ciphertext in the CAS. -/
theorem handleBlock_reject_no_effect_witness :
    handleBlock demoEnv [7] [7] (worldWithHead []) =
      (.error (Err.ext 30),
        { head := some [], blocks := [], cas := [], cafeOutbox := [],
          trace := [Call.decrypt [7]] }) ∧
    handleBlock demoEnv [0, 4] [0, 4] (worldWithHead []) =
      (.error Err.nilMessagePayload,
        { head := some [], blocks := [], cas := [], cafeOutbox := [],
          trace := [Call.decrypt [0, 4]] }) ∧
    ∃ id, demoEnv.addData [0, 1]
        (((worldWithHead []).logCall (Call.decrypt [0, 1])).logCall (Call.addData [0, 1]))
          = .ok id :=
  ⟨(handleBlock_reject_no_effect demoEnv [7] [7] (worldWithHead []) (by decide)).1 30 rfl
      (by intro b hb; cases hb),
    (handleBlock_reject_no_effect demoEnv [0, 4] [0, 4] (worldWithHead []) (by decide)).2.2.1
      [4] { header := some { date := 8, parents := [['a']], author := ['q'] },
            type := BlockType.MESSAGE, payload := none }
      rfl rfl rfl (by decide) (by decide),
    (handleBlock_reject_no_effect demoEnv [0, 1] [0, 1] (worldWithHead []) (by decide)).2.2.2
      { header := some { date := 5, parents := [], author := ['p'] },
        type := BlockType.MESSAGE, payload := some [9] }
      { head := some [], blocks := [], cas := [[0, 1]],
        trace := [Call.decrypt [0, 1], Call.addData [0, 1]],
        cafeOutbox := [(['a', 'b'], CafeRequestType.CafeStoreRequest)] }
      rfl |>.imp fun _ h => h.1⟩

/-- A value in the range of a 64-bit `int` is not changed by the wrap. -/
theorem wrapInt64_id (c : Int) (hlo : -(2 ^ 63) ≤ c) (hhi : c < 2 ^ 63) : wrapInt64 c = c := by
  unfold wrapInt64
  norm_num at hlo hhi ⊢
  omega

/-- Method `publish` in closed form, for a counter in `[0, 2^63 - 1)`: a stale hash changes
nothing; the current root hash is published, the counter goes up by one and back, and an
error of `ipfs.Publish` is logged when the counter is back at zero. -/
theorem publish_eq (f : Str → NodeState → Option Nat) (hash : Str) (n : NodeState)
    (hlo : 0 ≤ n.inflightPublishRequests) (hhi : n.inflightPublishRequests < 2 ^ 63 - 1) :
    publish f hash n =
      if hash ≠ n.rootHash then n
      else
        { n with
          published := n.published ++ [hash]
          counterValues := n.counterValues ++
            [n.inflightPublishRequests + 1, n.inflightPublishRequests]
          logged :=
            if n.inflightPublishRequests = 0 then
              match f hash
                { n with
                  inflightPublishRequests := n.inflightPublishRequests + 1
                  counterValues := n.counterValues ++ [n.inflightPublishRequests + 1]
                  published := n.published ++ [hash] } with
              | some e => n.logged ++ [e]
              | none => n.logged
            else n.logged } := by
  have h1 : wrapInt64 (n.inflightPublishRequests + 1) = n.inflightPublishRequests + 1 :=
    wrapInt64_id _ (by norm_num; omega) (by omega)
  have h2 : wrapInt64 (n.inflightPublishRequests + 1 - 1) = n.inflightPublishRequests := by
    rw [add_sub_cancel_right]
    exact wrapInt64_id _ (by norm_num; omega) (by omega)
  unfold publish
  by_cases hh : hash = n.rootHash
  · subst hh
    simp only [ne_eq, not_true_eq_false, if_false, h1, h2]
    by_cases hz : n.inflightPublishRequests = 0
    · simp only [hz, if_true]
      cases hf : f n.rootHash _ with
      | none => simp [hz] at hf ⊢
      | some e => simp [hz] at hf ⊢
    · simp [hz]
  · simp [hh]

/-- C18: publish coalescing.  For every call `publish(hash)` on a node whose counter is in
`[0, 2^63 - 1)`, the name-system publish is performed if and only if `hash` equals the
node's root hash when the lock is held; a stale hash returns with the state untouched; in
both cases `inflightPublishRequests` ends with the value it had and no value stored into
it is negative.  From the start of the node, whatever the sequence of re-seeds and
publishes, the counter is back at zero after each call and only ever holds 0 or 1. -/
theorem publish_coalescing (f : Str → NodeState → Option Nat) (hash : Str) (n : NodeState)
    (hlo : 0 ≤ n.inflightPublishRequests) (hhi : n.inflightPublishRequests < 2 ^ 63 - 1) :
    ((publish f hash n).published = n.published ++ [hash] ↔ hash = n.rootHash) ∧
    (hash ≠ n.rootHash → publish f hash n = n) ∧
    (publish f hash n).counterValues =
      n.counterValues ++
        (if hash = n.rootHash then [n.inflightPublishRequests + 1, n.inflightPublishRequests]
         else []) ∧
    (publish f hash n).inflightPublishRequests = n.inflightPublishRequests ∧
    0 ≤ (publish f hash n).inflightPublishRequests ∧
    (∀ events root,
      (runNode f events (initialNode root)).inflightPublishRequests = 0 ∧
      ∀ v ∈ (runNode f events (initialNode root)).counterValues, v = 0 ∨ v = 1) := by
  have heq := publish_eq f hash n hlo hhi
  have hsame : (publish f hash n).inflightPublishRequests = n.inflightPublishRequests := by
    rw [heq]
    split <;> rfl
  refine ⟨?_, ?_, ?_, hsame, hsame ▸ hlo, ?_⟩
  · rw [heq]
    by_cases hh : hash = n.rootHash
    · simp [hh]
    · simp [hh]
  · intro hh
    rw [heq, if_pos hh]
  · rw [heq]
    by_cases hh : hash = n.rootHash
    · simp [hh]
    · simp [hh]
  · intro events root
    have key : ∀ (evs : List NodeEvent) (m : NodeState), m.inflightPublishRequests = 0 →
        (∀ v ∈ m.counterValues, v = 0 ∨ v = 1) →
        (runNode f evs m).inflightPublishRequests = 0 ∧
        ∀ v ∈ (runNode f evs m).counterValues, v = 0 ∨ v = 1 := by
      intro evs
      induction evs with
      | nil => intro m h0 hv; exact ⟨h0, hv⟩
      | cons ev rest ih =>
        intro m h0 hv
        cases ev with
        | seed h => exact ih { m with rootHash := h } h0 hv
        | publish h =>
          have hm := publish_eq f h m (by omega) (by rw [h0]; norm_num)
          have p0 : (publish f h m).inflightPublishRequests = 0 := by
            rw [hm]
            split <;> exact h0
          refine ih (publish f h m) p0 ?_
          intro v hvin
          rw [hm] at hvin
          by_cases hq : h = m.rootHash
          · simp only [hq, ne_eq, not_true_eq_false, if_false, h0, zero_add,
              List.mem_append, List.mem_cons, List.mem_singleton, List.not_mem_nil,
              or_false] at hvin
            rcases hvin with hv1 | rfl | rfl
            · exact hv v hv1
            · exact Or.inr rfl
            · exact Or.inl rfl
          · simp only [ne_eq, hq, not_false_eq_true, if_true] at hvin
            exact hv v hvin
    exact key events (initialNode root) rfl (by intro v hv; simp [initialNode] at hv)

/-- C18 witness: a fresh node with root `a`; `publish(a)` publishes, `publish(b)` does not. -/
theorem publish_coalescing_witness :
    publish (fun _ _ => none) ['a'] (initialNode ['a']) =
      { rootHash := ['a'], inflightPublishRequests := 0, published := [['a']], logged := [],
        counterValues := [1, 0] } ∧
    publish (fun _ _ => none) ['b'] (initialNode ['a']) = initialNode ['a'] ∧
    (publish (fun _ _ => some 3) ['a'] (initialNode ['a'])).inflightPublishRequests =
      (initialNode ['a']).inflightPublishRequests :=
  ⟨by decide,
    (publish_coalescing (fun _ _ => none) ['b'] (initialNode ['a']) (by decide)
      (by decide)).2.1 (by decide),
    (publish_coalescing (fun _ _ => some 3) ['a'] (initialNode ['a']) (by decide)
      (by decide)).2.2.2.1⟩

/-- C19 counterexample: no lock file, the database exists, and opening it with the password
`bad` fails with error 14.  `Execute` prints "Invalid password" and returns that error,
not nil. -/
theorem execute_bad_password_counterexample :
    demoRepo.statLock "repo".toList = StatResult.notExist ∧
    demoRepo.statDb "repo".toList "mainnet.db".toList = StatResult.found ∧
    demoRepo.dbCreate "repo".toList "bad".toList false = .error 14 ∧
    Execute demoRepo [] ["mainnet".toList] "bad".toList =
      Exit.returned (some 14)
        [Effect.print "Decrypt the mainnet or testnet db?: ",
         Effect.print "Enter your password: ", Effect.print "",
         Effect.openDb "repo".toList "bad".toList false,
         Effect.print "Invalid password"] := by
  refine ⟨rfl, by decide, rfl, by decide⟩

/-- The lines the prompt loop prints for input it does not understand change nothing. -/
theorem quiet_skipEffects (skipped : List Str) : quiet (skipEffects skipped) = true := by
  induction skipped with
  | nil => rfl
  | cons r rest ih =>
    simp only [quiet, skipEffects, List.flatMap_cons, List.all_append] at ih ⊢
    simp [Effect.mutates, ih]

/-- A concatenation of effects is quiet when both parts are. -/
theorem quiet_append (a b : List Effect) : quiet (a ++ b) = (quiet a && quiet b) := by
  simp [quiet, List.all_append]

/-- The prompt loop passes over lines that name neither database. -/
theorem promptLoop_skip (denv : DecryptEnv) (repoPath password : Str) (skipped rest : List Str)
    (effects : List Effect) (hskip : ∀ r ∈ skipped, classify denv.toLower r = Choice.unknown) :
    promptLoop denv repoPath password (skipped ++ rest) effects =
      promptLoop denv repoPath password rest (effects ++ skipEffects skipped) := by
  induction skipped generalizing effects with
  | nil => simp [skipEffects]
  | cons r rs ih =>
    have hr : classify denv.toLower r = Choice.unknown := hskip r (List.mem_cons_self _ _)
    simp only [List.cons_append, promptLoop, hr, List.append_eq]
    rw [ih _ (fun q hq => hskip q (List.mem_cons_of_mem _ hq))]
    simp [skipEffects]

/-- C19 (amended): once a line of input names a database, `Execute` refuses without
touching the repository in each of these cases: the lock file is not reported absent
(daemon running) and the database file does not exist, where it returns nil; the database
opens but still reports as encrypted, where it returns nil; and opening the database
fails, where it returns the error of the open. -/
theorem execute_refusals (denv : DecryptEnv) (dataDir repoPath password : Str)
    (skipped rest : List Str) (resp filename : Str) (testnet : Bool)
    (hrepo : (dataDir ≠ [] ∧ repoPath = dataDir) ∨
      (dataDir = [] ∧ denv.getRepoPath = .ok repoPath))
    (hskip : ∀ r ∈ skipped, classify denv.toLower r = Choice.unknown)
    (hchoice : (classify denv.toLower resp = Choice.mainnet ∧ testnet = false ∧
        filename = "mainnet.db".toList) ∨
      (classify denv.toLower resp = Choice.testnet ∧ testnet = true ∧
        filename = "testnet.db".toList)) :
    (denv.statLock repoPath ≠ StatResult.notExist →
      ∃ effects, Execute denv dataDir (skipped ++ resp :: rest) password =
        Exit.returned none effects ∧ quiet effects = true) ∧
    (denv.statLock repoPath = StatResult.notExist →
      denv.statDb repoPath filename = StatResult.notExist →
      ∃ effects, Execute denv dataDir (skipped ++ resp :: rest) password =
        Exit.returned none effects ∧ quiet effects = true) ∧
    (denv.statLock repoPath = StatResult.notExist →
      denv.statDb repoPath filename ≠ StatResult.notExist →
      denv.dbCreate repoPath (escapeQuotes password) testnet = .ok true →
      ∃ effects, Execute denv dataDir (skipped ++ resp :: rest) password =
        Exit.returned none effects ∧ quiet effects = true) ∧
    (∀ err, denv.statLock repoPath = StatResult.notExist →
      denv.statDb repoPath filename ≠ StatResult.notExist →
      denv.dbCreate repoPath (escapeQuotes password) testnet = .error err →
      ∃ effects, Execute denv dataDir (skipped ++ resp :: rest) password =
        Exit.returned (some err) effects ∧ quiet effects = true) := by
  have hexec : Execute denv dataDir (skipped ++ resp :: rest) password =
      promptLoop denv repoPath password (resp :: rest) (skipEffects skipped) := by
    unfold Execute
    rcases hrepo with ⟨hd, rfl⟩ | ⟨hd, hg⟩
    · rw [if_neg hd, promptLoop_skip _ _ _ _ _ _ hskip]
      simp
    · rw [if_pos hd, hg]
      simp only
      rw [promptLoop_skip _ _ _ _ _ _ hskip]
      simp
  have hq := quiet_skipEffects skipped
  rw [hexec]
  rcases hchoice with ⟨hc, rfl, rfl⟩ | ⟨hc, rfl, rfl⟩
  all_goals
    simp only [promptLoop, hc, checkRepo]
    refine ⟨?_, ?_, ?_, ?_⟩
    · intro hlock
      rw [if_pos hlock]
      exact ⟨_, rfl, by simp only [quiet_append, hq]; rfl⟩
    · intro hlock hdb
      rw [if_neg (not_not.mpr hlock), if_pos hdb]
      exact ⟨_, rfl, by simp only [quiet_append, hq]; rfl⟩
    · intro hlock hdb hopen
      rw [if_neg (not_not.mpr hlock), if_neg hdb]
      simp only [decryptChosen, hopen]
      exact ⟨_, rfl, by simp only [quiet_append, hq]; rfl⟩
    · intro err hlock hdb hopen
      rw [if_neg (not_not.mpr hlock), if_neg hdb]
      simp only [decryptChosen, hopen]
      exact ⟨_, rfl, by simp only [quiet_append, hq]; rfl⟩

/-- C19 (amended) witness: after a line that names no database, `TestNet` is asked for and
its database file is missing: `Execute` returns nil and changes nothing.  The line
`MAİNNET`, whose third letter is U+0130, selects the mainnet database, which opens with the
empty password and still reports as encrypted: again nil, and nothing changed. -/
theorem execute_refusals_witness :
    (∃ effects, Execute demoRepo [] (["what".toList] ++ "TestNet".toList :: []) [] =
      Exit.returned none effects ∧ quiet effects = true) ∧
    classify demoRepo.toLower ['M', 'A', Char.ofNat 0x130, 'N', 'N', 'E', 'T'] =
      Choice.mainnet ∧
    (∃ effects, Execute demoRepo []
        ([] ++ ['M', 'A', Char.ofNat 0x130, 'N', 'N', 'E', 'T'] :: []) [] =
      Exit.returned none effects ∧ quiet effects = true) :=
  ⟨(execute_refusals demoRepo [] "repo".toList [] ["what".toList] [] "TestNet".toList
      "testnet.db".toList true (Or.inr ⟨rfl, rfl⟩)
      (by
        intro r hr
        simp only [List.mem_singleton] at hr
        subst hr
        decide)
      (Or.inr ⟨by decide, rfl, rfl⟩)).2.1 rfl (by decide),
    by decide,
    (execute_refusals demoRepo [] "repo".toList [] [] []
      ['M', 'A', Char.ofNat 0x130, 'N', 'N', 'E', 'T']
      "mainnet.db".toList false (Or.inr ⟨rfl, rfl⟩)
      (by intro r hr; cases hr)
      (Or.inl ⟨by decide, rfl, rfl⟩)).2.2.1 rfl (by decide) rfl⟩

/-- The loop of `post` over a concatenation: the second part runs in the state the first
part left, unless the first part ended in an error. -/
theorem postLoop_append (env : Env) (envelope : Envelope) (pre rest : List ThreadPeer)
    (w : World) :
    postLoop env envelope (pre ++ rest) w =
      match postLoop env envelope pre w with
      | (.error e, w1) => (.error e, w1)
      | (.ok _, w1) => postLoop env envelope rest w1 := by
  induction pre generalizing w with
  | nil => rfl
  | cons tp ps ih =>
    simp only [List.cons_append, postLoop]
    cases env.idB58Decode tp.id with
    | error e => rfl
    | ok pid =>
      simp only
      cases env.outboxAdd pid envelope w with
      | some e => rfl
      | none => exact ih _

/-- C21 counterexample: in the peers `b`, `#`, `d` the second is the first whose id fails
to decode (error 58), but `NewEnvelope` fails first: `post` returns error 77, not the decode
error, and the envelope is enqueued for no peer, not for the first one. -/
theorem post_partial_no_envelope_counterexample :
    noEnvelopeEnv.idB58Decode ['b'] = .ok [1] ∧ noEnvelopeEnv.idB58Decode ['#'] = .error 58 ∧
    post noEnvelopeEnv { hash := [0, 1], ciphertext := [0, 1], header := none }
        [{ id := ['b'], welcomed := false }, { id := ['#'], welcomed := false },
          { id := ['d'], welcomed := false }]
        (worldWithHead ['a', 'b']) =
      (.error (Err.ext 77),
        { head := some ['a', 'b'], blocks := [], cafeOutbox := [], cas := [],
          threadsOutbox := [], trace := [Call.newEnvelope [0, 1] [0, 1]] }) :=
  ⟨rfl, rfl, rfl⟩

/-- C21 (amended): `post` is not atomic over the peers list.  Let the envelope service return an
envelope and let `failing` be the first listed peer whose id fails to decode, or whose
outbox add fails, the peers before it decoding and being added with success.  Then `post`
returns that error with the envelope enqueued for exactly the peers before `failing`, in
list order, and for none of the later ones, and the flush is not started: the trace gains
the envelope call alone. -/
theorem post_partial_on_failure (env : Env) (commit : commitResult)
    (pre rest : List ThreadPeer) (failing : ThreadPeer) (w : World) (envelope : Envelope)
    (henv : env.newEnvelope env.threadId commit.hash commit.ciphertext = .ok envelope)
    (hdec : ∀ tp ∈ pre, ∃ pid, env.idB58Decode tp.id = .ok pid)
    (hadd : ∀ tp ∈ pre, ∀ pid, env.idB58Decode tp.id = .ok pid →
      ∀ w1, env.outboxAdd pid envelope w1 = none) :
    ∃ pids, List.Forall₂ (fun tp pid => env.idB58Decode tp.id = .ok pid) pre pids ∧
      pids.length = pre.length ∧
      (∀ e, env.idB58Decode failing.id = .error e →
        post env commit (pre ++ failing :: rest) w =
          (.error (Err.ext e),
            { w with
              threadsOutbox := w.threadsOutbox ++ pids.map (fun pid => (pid, envelope))
              trace := w.trace ++ [Call.newEnvelope commit.hash commit.ciphertext] })) ∧
      (∀ pid e, env.idB58Decode failing.id = .ok pid →
        env.outboxAdd pid envelope
          { w with
            threadsOutbox := w.threadsOutbox ++ pids.map (fun q => (q, envelope))
            trace := w.trace ++ [Call.newEnvelope commit.hash commit.ciphertext] } = some e →
        post env commit (pre ++ failing :: rest) w =
          (.error (Err.ext e),
            { w with
              threadsOutbox := w.threadsOutbox ++ pids.map (fun q => (q, envelope))
              trace := w.trace ++ [Call.newEnvelope commit.hash commit.ciphertext] })) := by
  obtain ⟨pids, hall, hrun⟩ := postLoop_all env envelope pre
    (w.logCall (Call.newEnvelope commit.hash commit.ciphertext)) hdec hadd
  have hlen : ¬ (pre ++ failing :: rest).length = 0 := by simp
  have hw : ({ w.logCall (Call.newEnvelope commit.hash commit.ciphertext) with
        threadsOutbox :=
          (w.logCall (Call.newEnvelope commit.hash commit.ciphertext)).threadsOutbox ++
            pids.map (fun pid => (pid, envelope)) } : World) =
      { w with
        threadsOutbox := w.threadsOutbox ++ pids.map (fun pid => (pid, envelope))
        trace := w.trace ++ [Call.newEnvelope commit.hash commit.ciphertext] } := by
    simp [World.logCall]
  rw [hw] at hrun
  refine ⟨pids, hall, hall.length_eq.symm, ?_, ?_⟩
  · intro e hfail
    simp only [post, hlen, if_false, henv, postLoop_append, hrun, postLoop, hfail]
  · intro pid e hok hfail
    simp only [post, hlen, if_false, henv, postLoop_append, hrun, postLoop, hok, hfail]

/-- C21 (amended) witness: the peers `b`, `z`, `d`, where the outbox refuses `z`: the envelope is
enqueued for `b` alone and the flush is not started; likewise with the undecodable id `#`
in second place. -/
theorem post_partial_on_failure_witness :
    post demoEnv { hash := [0, 1], ciphertext := [0, 1], header := none }
        ([{ id := ['b'], welcomed := false }] ++
          { id := ['z'], welcomed := false } :: [{ id := ['d'], welcomed := false }])
        (worldWithHead ['a', 'b']) =
      (.error (Err.ext 60),
        { head := some ['a', 'b'], blocks := [], cafeOutbox := [], cas := [],
          threadsOutbox := [([1], [116, 0, 0, 1, 0, 0, 1])],
          trace := [Call.newEnvelope [0, 1] [0, 1]] }) ∧
    post demoEnv { hash := [0, 1], ciphertext := [0, 1], header := none }
        ([{ id := ['b'], welcomed := false }] ++
          { id := ['#'], welcomed := false } :: [{ id := ['d'], welcomed := false }])
        (worldWithHead ['a', 'b']) =
      (.error (Err.ext 58),
        { head := some ['a', 'b'], blocks := [], cafeOutbox := [], cas := [],
          threadsOutbox := [([1], [116, 0, 0, 1, 0, 0, 1])],
          trace := [Call.newEnvelope [0, 1] [0, 1]] }) := by
  have hdec : ∀ tp ∈ [({ id := ['b'], welcomed := false } : ThreadPeer)],
      ∃ pid, demoEnv.idB58Decode tp.id = .ok pid := by
    intro tp htp
    simp only [List.mem_singleton] at htp
    subst htp
    exact ⟨[1], rfl⟩
  have hadd : ∀ tp ∈ [({ id := ['b'], welcomed := false } : ThreadPeer)],
      ∀ pid, demoEnv.idB58Decode tp.id = .ok pid →
        ∀ w1, demoEnv.outboxAdd pid [116, 0, 0, 1, 0, 0, 1] w1 = none := by
    intro tp htp pid hpid w1
    simp only [List.mem_singleton] at htp
    subst htp
    cases hpid
    rfl
  constructor
  · obtain ⟨pids, hall, _, _, h2⟩ :=
      post_partial_on_failure demoEnv { hash := [0, 1], ciphertext := [0, 1], header := none }
        [{ id := ['b'], welcomed := false }] [{ id := ['d'], welcomed := false }]
        { id := ['z'], welcomed := false } (worldWithHead ['a', 'b'])
        [116, 0, 0, 1, 0, 0, 1] rfl hdec hadd
    cases hall with
    | cons h1 ht =>
      cases ht
      cases h1
      exact h2 [25] 60 rfl rfl
  · obtain ⟨pids, hall, _, h1, _⟩ :=
      post_partial_on_failure demoEnv { hash := [0, 1], ciphertext := [0, 1], header := none }
        [{ id := ['b'], welcomed := false }] [{ id := ['d'], welcomed := false }]
        { id := ['#'], welcomed := false } (worldWithHead ['a', 'b'])
        [116, 0, 0, 1, 0, 0, 1] rfl hdec hadd
    cases hall with
    | cons hb ht =>
      cases ht
      cases hb
      exact h1 58 rfl

end Textile
